import Mathlib

/-!
Verification development for the `create-starpack` package builder
(`src/create-starpack.cpp`).  The STARBUILD recipe parser, the hook-routing
logic, the source-resolution dispatcher and the phase pipeline of
`createPackage` are embedded shallowly over `List Char` strings, and the
testable properties of the specification are settled against that embedding.
-/

set_option maxRecDepth 10000

namespace StarpackModel

/-! ## Character classes (C locale, as used by the C++ code) -/

/-- Model of C `isspace` on the default locale: space, \t, \n, \v, \f, \r. -/
def isSpaceC (c : Char) : Bool :=
  c.toNat == 32 || c.toNat == 9 || c.toNat == 10 || c.toNat == 11 ||
    c.toNat == 12 || c.toNat == 13

/-- Model of C `isdigit`: ASCII `'0'..'9'`. -/
def isDigitC (c : Char) : Bool :=
  48 ≤ c.toNat && c.toNat ≤ 57

/-- ASCII letters, as matched by the regex class `[A-Za-z]`. -/
def isAlphaC (c : Char) : Bool :=
  (65 ≤ c.toNat && c.toNat ≤ 90) || (97 ≤ c.toNat && c.toNat ≤ 122)

/-- The regex word class `\w` = `[A-Za-z0-9_]`. -/
def isWordC (c : Char) : Bool :=
  isAlphaC c || isDigitC c || c == '_'

/-- ASCII lowercase of a character's code point, as a natural number.
Used to model the `icase` flag of `std::regex`. -/
def lowerNat (c : Char) : Nat :=
  if 65 ≤ c.toNat && c.toNat ≤ 90 then c.toNat + 32 else c.toNat

/-! ## String helpers mirrored from the C++ source -/

/-- Model of the `trim` helper of `create-starpack.cpp`: strip leading and
trailing `isspace` characters. -/
def trimC (l : List Char) : List Char :=
  ((l.dropWhile isSpaceC).reverse.dropWhile isSpaceC).reverse

/-- Model of `extract_quoted_strings`: all `"…"` segments of the input,
leftmost non-overlapping, without the quotes (regex `"([^"]*)"`). -/
def extractQuoted (l : List Char) : List (List Char) :=
  (l.foldl
    (fun st c =>
      match st with
      | (none, acc) => if c == '"' then (some ([] : List Char), acc) else (none, acc)
      | (some cur, acc) =>
          if c == '"' then (none, acc ++ [cur.reverse]) else (some (c :: cur), acc))
    ((none : Option (List Char)), ([] : List (List Char)))).2

/-- Drop an exact pattern from the front of a list; `none` if it is not
a prefix (first argument is the pattern). -/
def dropPref : List Char → List Char → Option (List Char)
  | [], l => some l
  | _ :: _, [] => none
  | p :: ps, c :: cs => if c == p then dropPref ps cs else none

/-- True when the list has no ECMAScript line terminator relevant to `.`:
`std::regex`'s `.` matches any character except `\n` and `\r`. -/
def noNL (l : List Char) : Bool :=
  l.all (fun c => !(c == '\n' || c == '\r'))

/-- Model of `std::string::find(pat)`: index of the first occurrence of
`pat` as a substring (`some 0` for the empty pattern). -/
def findSS (l pat : List Char) : Option Nat :=
  if pat.isPrefixOf l then some 0
  else
    match l with
    | [] => none
    | _ :: cs => (findSS cs pat).map (· + 1)

/-- `std::string::find(pat) != npos`. -/
def hasSub (l pat : List Char) : Bool :=
  (findSS l pat).isSome

/-- Everything after the last `'/'` (the whole string if there is none);
models `s.substr(s.find_last_of('/') + 1)` as used for URL/path basenames. -/
def lastSeg (s : List Char) : List Char :=
  (s.reverse.takeWhile (fun c => !(c == '/'))).reverse

/-! ## The line-shape matchers (the `std::regex` patterns of `parse_starbuild`) -/

/-- `std::regex_match(s, key\s*=\s*"(.*)")`: the whole line is the key, then
whitespace, `=`, whitespace, and a quoted value running to the final `"` of
the line (greedy `.*`, which cannot cross a line terminator). -/
def matchKeyQuoted (key l : List Char) : Option (List Char) :=
  match dropPref key l with
  | none => none
  | some r1 =>
    match r1.dropWhile isSpaceC with
    | '=' :: r2 =>
      match r2.dropWhile isSpaceC with
      | '"' :: r3 =>
          if r3.getLast? == some '"' && noNL r3.dropLast then some r3.dropLast else none
      | _ => none
    | _ => none

/-- `std::regex_match(s, key\s*=\s*\((.*)\))`: like `matchKeyQuoted` but with
parentheses; the capture runs to the final `)` which must end the line. -/
def matchKeyParenMatch (key l : List Char) : Option (List Char) :=
  match dropPref key l with
  | none => none
  | some r1 =>
    match r1.dropWhile isSpaceC with
    | '=' :: r2 =>
      match r2.dropWhile isSpaceC with
      | '(' :: r3 =>
          if r3.getLast? == some ')' && noNL r3.dropLast then some r3.dropLast else none
      | _ => none
    | _ => none

/-- Greedy capture of `\((.*)\)` under `regex_search`: the capture runs from
after the `(` to the last `)` that is reachable without crossing a line
terminator; `none` when there is no such `)`. -/
def lastCloseSplit (r : List Char) : Option (List Char) :=
  let r1 := r.takeWhile (fun c => !(c == '\n' || c == '\r'))
  if r1.contains ')' then
    some (((r1.reverse.dropWhile (fun c => !(c == ')'))).tail).reverse)
  else none

/-- `std::regex_search(s, ^key\s*=\s*\((.*)\))`: anchored at the start but the
match need not span the whole line. -/
def matchKeyParenSearch (key l : List Char) : Option (List Char) :=
  match dropPref key l with
  | none => none
  | some r1 =>
    match r1.dropWhile isSpaceC with
    | '=' :: r2 =>
      match r2.dropWhile isSpaceC with
      | '(' :: r3 => lastCloseSplit r3
      | _ => none
    | _ => none

/-- `std::regex_match(s, ^([_A-Za-z]\w*)\s*\(\)\s*\{)`: a function header line
`name() {`, returning the identifier. Because `regex_match` must consume the
whole line, nothing may follow the `{`. -/
def matchFuncHeader (l : List Char) : Option (List Char) :=
  match l with
  | [] => none
  | c :: rest =>
    if isAlphaC c || c == '_' then
      let ident := c :: rest.takeWhile isWordC
      match (rest.dropWhile isWordC).dropWhile isSpaceC with
      | '(' :: ')' :: r2 =>
        match r2.dropWhile isSpaceC with
        | ['{'] => some ident
        | _ => none
      | _ => none
    else none

def builtinFuncNames : List (List Char) :=
  ["prepare".toList, "compile".toList, "verify".toList, "assemble".toList]

/-- A matched function header opens custom capture iff the name is not a
reserved phase name and does not start with `assemble_`. -/
def isCustomName (f : List Char) : Bool :=
  !(builtinFuncNames.contains f) && !("assemble_".toList.isPrefixOf f)

def customHeaderTest (t : List Char) : Bool :=
  match matchFuncHeader t with
  | some f => isCustomName f
  | none => false

/-! ## Parser state -/

/-- Which multi-line array is currently being accumulated (the inner
`while (arr.find(")") == npos)` loops of `parse_starbuild`). -/
inductive ArrKey
  | pdesc
  | subdep (name : List Char)
  | srcs
deriving DecidableEq, Repr

/-- The mutable state of the `parse_starbuild` line loop. -/
structure PState where
  package_names : List (List Char) := []
  package_descriptions : List (List Char) := []
  subpackageDependencies : List (List Char × List (List Char)) := []
  package_version : List Char := []
  description : List Char := []
  dependencies : List (List Char) := []
  build_dependencies : List (List Char) := []
  clashes : List (List Char) := []
  gives : List (List Char) := []
  optional_dependencies : List (List Char) := []
  sources : List (List Char) := []
  prepare_stream : List Char := []
  compile_stream : List Char := []
  verify_stream : List Char := []
  generic_stream : List Char := []
  specific_stream : List Char := []
  generic_assemble_function : List Char := []
  assemble_functions : List (List Char × List Char) := []
  symlinkPairs : List (List Char × List Char) := []
  customFunctions : List (List Char) := []
  custom_stream : List Char := []
  current_assemble_key : List Char := []
  in_prepare : Bool := false
  in_compile : Bool := false
  in_verify : Bool := false
  in_generic : Bool := false
  in_specific : Bool := false
  in_custom : Bool := false
  arrMode : Option (ArrKey × List Char) := none
deriving DecidableEq, Repr

/-- `subpackageDependencies[k].insert(end, vs)` on the `unordered_map`:
append to the entry for `k`, creating it if absent. -/
def setAssocApp (m : List (List Char × List (List Char))) (k : List Char)
    (vs : List (List Char)) : List (List Char × List (List Char)) :=
  match m with
  | [] => [(k, vs)]
  | (k', v') :: rest =>
      if k' == k then (k', v' ++ vs) :: rest else (k', v') :: setAssocApp rest k vs

/-- `assemble_functions[k] = v`: replace or insert. -/
def setAssoc (m : List (List Char × List Char)) (k v : List Char) :
    List (List Char × List Char) :=
  match m with
  | [] => [(k, v)]
  | (k', v') :: rest =>
      if k' == k then (k', v) :: rest else (k', v') :: setAssoc rest k v

/-- Store the words extracted from a completed array body into the field the
array belongs to. -/
def applyArr (st : PState) (k : ArrKey) (arr : List Char) : PState :=
  let ws := extractQuoted arr
  match k with
  | ArrKey.pdesc => { st with package_descriptions := st.package_descriptions ++ ws }
  | ArrKey.subdep n =>
      { st with subpackageDependencies := setAssocApp st.subpackageDependencies n ws }
  | ArrKey.srcs => { st with sources := st.sources ++ ws }

/-- Open a multi-line array whose first chunk after `(` is `arr`; if the
chunk already contains `)` the array closes on this very line (truncated at
the first `)`), otherwise subsequent raw lines will be accumulated. -/
def startArray (st : PState) (k : ArrKey) (arr : List Char) : PState :=
  if arr.contains ')' then
    applyArr st k (arr.takeWhile (fun c => !(c == ')')))
  else { st with arrMode := some (k, arr) }

/-- The part of a trimmed line after its first `(`. -/
def afterFirstParen (t : List Char) : List Char :=
  ((t.dropWhile (fun c => !(c == '('))).tail)

def pkgNameKey : List Char := "package_name".toList
def pdescKey : List Char := "package_descriptions".toList
def depUnd : List Char := "dependencies_".toList
def pvKey : List Char := "package_version".toList
def descKey : List Char := "description".toList
def depKey : List Char := "dependencies".toList
def bdepKey : List Char := "build_dependencies".toList
def clashesKey : List Char := "clashes".toList
def givesKey : List Char := "gives".toList
def optDepKey : List Char := "optional_dependencies".toList
def srcEq : List Char := "sources=".toList
def symKey : List Char := "symlink:".toList
def prepHdr : List Char := "prepare()".toList
def compHdr : List Char := "compile()".toList
def verHdr : List Char := "verify()".toList
def asmHdr : List Char := "assemble()".toList
def asmUnd : List Char := "assemble_".toList
def parensPat : List Char := "()".toList

/-- Rule 7 of the loop: `symlink: "link:target"` lines.
Surrounding quotes are stripped when present on both ends, the payload is
split at its first `:`, both sides trimmed, and the pair is recorded only
when both sides are non-empty. -/
def stepSymlink (st : PState) (t : List Char) : PState :=
  let pairStr := trimC (t.drop 8)
  let pairStr2 :=
    if pairStr.head? == some '"' && pairStr.getLast? == some '"' then
      (pairStr.drop 1).dropLast
    else pairStr
  if pairStr2.contains ':' then
    let link := trimC (pairStr2.takeWhile (fun c => !(c == ':')))
    let target := trimC ((pairStr2.dropWhile (fun c => !(c == ':'))).tail)
    if !link.isEmpty && !target.isEmpty then
      { st with symlinkPairs := st.symlinkPairs ++ [(link, target)] }
    else st
  else st

/-- Rule 3: `dependencies_<pkg> = ( … )`. The subpackage name is everything
in the trimmed left side after the 13-character `dependencies_` prefix. -/
def stepSubdep (st : PState) (t : List Char) : PState :=
  if t.contains '=' then
    let leftSide := trimC (t.takeWhile (fun c => !(c == '=')))
    let name := leftSide.drop 13
    if t.contains '(' then startArray st (ArrKey.subdep name) (afterFirstParen t)
    else st
  else st

/-- Rule 10: accumulate a raw line (plus newline) into the stream of the
innermost open phase body, checked in the fixed source order. -/
def stepBody (st : PState) (line : List Char) : PState :=
  if st.in_prepare then { st with prepare_stream := st.prepare_stream ++ line ++ ['\n'] }
  else if st.in_compile then { st with compile_stream := st.compile_stream ++ line ++ ['\n'] }
  else if st.in_verify then { st with verify_stream := st.verify_stream ++ line ++ ['\n'] }
  else if st.in_generic then { st with generic_stream := st.generic_stream ++ line ++ ['\n'] }
  else if st.in_specific then { st with specific_stream := st.specific_stream ++ line ++ ['\n'] }
  else st

/-- Rules 9 and 10: a lone `}` closes the open phase body (generic/specific
assemble bodies are committed at that point); anything else falls through to
body accumulation. -/
def stepClose (st : PState) (line t : List Char) : PState :=
  if t == ['}'] then
    if st.in_prepare then { st with in_prepare := false }
    else if st.in_compile then { st with in_compile := false }
    else if st.in_verify then { st with in_verify := false }
    else if st.in_generic then
      { st with in_generic := false, generic_assemble_function := st.generic_stream }
    else if st.in_specific then
      { st with in_specific := false,
                assemble_functions :=
                  setAssoc st.assemble_functions st.current_assemble_key st.specific_stream }
    else stepBody st line
  else stepBody st line

/-- Rule 8: phase headers `prepare() {` … `assemble_<pkg>() {`, matched by
`find(...) == 0` plus a `{` anywhere on the line. -/
def stepHeaders (st : PState) (line t : List Char) : PState :=
  if prepHdr.isPrefixOf t && t.contains '{' then { st with in_prepare := true }
  else if compHdr.isPrefixOf t && t.contains '{' then { st with in_compile := true }
  else if verHdr.isPrefixOf t && t.contains '{' then { st with in_verify := true }
  else if asmHdr.isPrefixOf t && t.contains '{' then { st with in_generic := true }
  else if asmUnd.isPrefixOf t && hasSub t parensPat && t.contains '{' then
    match findSS (t.drop 9) parensPat with
    | some j =>
        { st with current_assemble_key := (t.drop 9).take j,
                  in_specific := true, specific_stream := [] }
    | none => stepClose st line t
  else stepClose st line t

/-- Rules 1–7 of the loop, in source order, reached only outside custom
capture. -/
def stepKeys (st : PState) (line t : List Char) : PState :=
  match matchKeyParenMatch pkgNameKey t with
  | some body => { st with package_names := st.package_names ++ extractQuoted body }
  | none =>
  match matchKeyQuoted pkgNameKey t with
  | some v => { st with package_names := st.package_names ++ [v] }
  | none =>
  if pdescKey.isPrefixOf t && t.contains '(' then
    startArray st ArrKey.pdesc (afterFirstParen t)
  else if depUnd.isPrefixOf t then stepSubdep st t
  else
  match matchKeyQuoted pvKey t with
  | some v => { st with package_version := v }
  | none =>
  match matchKeyQuoted descKey t with
  | some v => { st with description := v }
  | none =>
  match matchKeyParenSearch depKey t with
  | some cap => { st with dependencies := st.dependencies ++ extractQuoted cap }
  | none =>
  match matchKeyParenSearch bdepKey t with
  | some cap => { st with build_dependencies := st.build_dependencies ++ extractQuoted cap }
  | none =>
  match matchKeyParenSearch clashesKey t with
  | some cap => { st with clashes := st.clashes ++ extractQuoted cap }
  | none =>
  match matchKeyParenSearch givesKey t with
  | some cap => { st with gives := st.gives ++ extractQuoted cap }
  | none =>
  match matchKeyParenSearch optDepKey t with
  | some cap => { st with optional_dependencies := st.optional_dependencies ++ extractQuoted cap }
  | none =>
  if srcEq.isPrefixOf t then
    if t.contains '(' then startArray st ArrKey.srcs (afterFirstParen t) else st
  else if symKey.isPrefixOf t then stepSymlink st t
  else stepHeaders st line t

/-- Custom-capture mode: append the raw line; a trimmed `}` commits the
captured helper function. -/
def stepCustom (st : PState) (line t : List Char) : PState :=
  let cs := st.custom_stream ++ line ++ ['\n']
  if t == ['}'] then
    { st with in_custom := false, custom_stream := cs,
              customFunctions := st.customFunctions ++ [cs] }
  else { st with custom_stream := cs }

/-- One iteration of the `parse_starbuild` line loop.  When a multi-line
array is open the raw line feeds the array accumulator (the inner `getline`
loop of the C++ code); otherwise the line is trimmed and dispatched through
the rule chain in source order. -/
def stepLine (st : PState) (line : List Char) : PState :=
  match st.arrMode with
  | some (k, arr) =>
    let arr' := arr ++ ' ' :: trimC line
    if arr'.contains ')' then
      applyArr { st with arrMode := none } k (arr'.takeWhile (fun c => !(c == ')')))
    else { st with arrMode := some (k, arr') }
  | none =>
    let t := trimC line
    match t with
    | [] => st
    | t0 :: _ =>
      if t0 == '#' then st
      else if !st.in_custom && customHeaderTest t then
        { st with in_custom := true, custom_stream := line ++ ['\n'] }
      else if st.in_custom then stepCustom st line t
      else stepKeys st line t

def initState : PState := {}

/-- Run the whole line loop of `parse_starbuild` over a list of lines. -/
def runLines (lines : List (List Char)) : PState :=
  lines.foldl stepLine initState

/-- The output of `parse_starbuild` (the by-reference out-parameters). -/
structure Recipe where
  package_names : List (List Char)
  package_descriptions : List (List Char)
  subpackageDependencies : List (List Char × List (List Char))
  package_version : List Char
  description : List Char
  dependencies : List (List Char)
  build_dependencies : List (List Char)
  clashes : List (List Char)
  gives : List (List Char)
  optional_dependencies : List (List Char)
  sources : List (List Char)
  prepare_function : List Char
  compile_function : List Char
  verify_function : List Char
  generic_assemble_function : List Char
  assemble_functions : List (List Char × List Char)
  symlinkPairs : List (List Char × List Char)
  customFunctions : List (List Char)
deriving DecidableEq, Repr

/-- End-of-file behaviour of `parse_starbuild`: a still-open multi-line
array is extracted as-is (the `find(")")` truncation is skipped when absent),
and the prepare/compile/verify streams are committed. -/
def finalize (st : PState) : Recipe :=
  let st1 :=
    match st.arrMode with
    | some (k, arr) =>
        applyArr { st with arrMode := none } k
          (if arr.contains ')' then arr.takeWhile (fun c => !(c == ')')) else arr)
    | none => st
  { package_names := st1.package_names
    package_descriptions := st1.package_descriptions
    subpackageDependencies := st1.subpackageDependencies
    package_version := st1.package_version
    description := st1.description
    dependencies := st1.dependencies
    build_dependencies := st1.build_dependencies
    clashes := st1.clashes
    gives := st1.gives
    optional_dependencies := st1.optional_dependencies
    sources := st1.sources
    prepare_function := st1.prepare_stream
    compile_function := st1.compile_stream
    verify_function := st1.verify_stream
    generic_assemble_function := st1.generic_assemble_function
    assemble_functions := st1.assemble_functions
    symlinkPairs := st1.symlinkPairs
    customFunctions := st1.customFunctions }

/-- `parse_starbuild` over a list of lines (file opening abstracted away:
the recipe text is given as its lines). -/
def parseSB (lines : List (List Char)) : Recipe :=
  finalize (runLines lines)

/-- Convenience entry point taking Lean strings as lines. -/
def parseSBs (lines : List String) : Recipe :=
  parseSB (lines.map String.toList)

/-! ## Hook routing (the per-package hook loop of `createPackage`)

The C++ code builds `^(<name>-)?(.+\.hook)$` (single-package builds) or
`^<name>-(.+\.hook)$` (multi-package builds) with `icase`, interpolating the
package name literally; the embedding below is faithful for package names
made of characters that are not regex metacharacters. -/

/-- Case-insensitive `dropPref` (ASCII case folding, modelling `icase`). -/
def dropPrefI : List Char → List Char → Option (List Char)
  | [], l => some l
  | _ :: _, [] => none
  | p :: ps, c :: cs => if lowerNat c == lowerNat p then dropPrefI ps cs else none

def lowerL (l : List Char) : List Nat :=
  l.map lowerNat

def hookSuffix : List Char := ".hook".toList

/-- `.+\.hook` matched against the whole remainder: at least one character
(none of them a line terminator) followed by `.hook`, case-insensitively. -/
def hookBody (r : List Char) : Bool :=
  decide (6 ≤ r.length) && (lowerL (r.drop (r.length - 5)) == lowerL hookSuffix) &&
    noNL (r.take (r.length - 5))

/-- Multi-package hook pattern `^<pkg>-(.+\.hook)$` (icase); returns the
captured `<phase>.hook` part. -/
def matchHookMulti (pkg f : List Char) : Option (List Char) :=
  match dropPrefI (pkg ++ ['-']) f with
  | some rest => if hookBody rest then some rest else none
  | none => none

/-- Single-package hook pattern `^(<pkg>-)?(.+\.hook)$` (icase): the optional
prefix is tried greedily first, with backtracking to the prefix-less
alternative. -/
def matchHookSingle (pkg f : List Char) : Option (List Char) :=
  match dropPrefI (pkg ++ ['-']) f with
  | some rest =>
      if hookBody rest then some rest
      else if hookBody f then some f else none
  | none => if hookBody f then some f else none

/-- `!filename.empty() && isdigit(filename[0])`. -/
def headDigit : List Char → Bool
  | [] => false
  | c :: _ => isDigitC c

/-- Where a matched hook file is copied. -/
inductive HookDest
  | universal (fname : List Char)
  | hooksDir (phase : List Char)
deriving DecidableEq, Repr

/-- Destination of a recipe-directory file for one package's hook scan:
`none` when the file does not match the pattern; digit-initial files go to
the universal-hooks directory under their own name, all others to
`hooks/<phase>.hook` with the package prefix stripped. -/
def routeHook (single : Bool) (pkg f : List Char) : Option HookDest :=
  match (if single then matchHookSingle pkg f else matchHookMulti pkg f) with
  | none => none
  | some phase =>
      some (if headDigit f then HookDest.universal f else HookDest.hooksDir phase)

/-- All hook copies performed by a build over the given recipe-directory
file listing: every package scans every file. -/
def hookRoutesFor (pkgs : List (List Char)) (files : List (List Char)) :
    List (List Char × List Char × HookDest) :=
  ((pkgs.map (fun p =>
    files.filterMap (fun f =>
      (routeHook (pkgs.length == 1) p f).map (fun d => (p, f, d))))).flatten)

/-! ## Package metadata (the per-package YAML of `createPackage`) -/

structure PackageMetadata where
  name : List Char
  version : List Char
  description : List Char
  dependencies : List (List Char)
  clashes : List (List Char)
  gives : List (List Char)
  optional_dependencies : List (List Char)
deriving DecidableEq, Repr

/-- `finalDeps`: the global `dependencies` concatenated with the package's
entry of `subpackageDependencies` (when present), in order, no
deduplication. -/
def finalDepsFor (r : Recipe) (pkg : List Char) : List (List Char) :=
  r.dependencies ++
    (match List.lookup pkg r.subpackageDependencies with
     | some d => d
     | none => [])

/-- The metadata computed for the `i`-th declared package. -/
def packageMetadataFor (r : Recipe) (i : Nat) : PackageMetadata :=
  let pkg := r.package_names.getD i []
  { name := pkg
    version := r.package_version
    description :=
      if i < r.package_descriptions.length then r.package_descriptions.getD i []
      else r.description
    dependencies := finalDepsFor r pkg
    clashes := r.clashes
    gives := r.gives
    optional_dependencies := r.optional_dependencies }

/-! ## Source resolution (`fetchSources`) and the build pipeline
(`createPackage`)

File-system, network and subprocess outcomes are abstracted into an
environment of oracles; the control flow over those oracles is translated
from the source. -/

/-- Observable actions of a build run. -/
inductive Ev
  | fetched (p : List Char)
  | extracted (p : List Char)
  | ranScript (phase : List Char)
  | assembled (pkg : List Char)
  | copiedHook (pkg f : List Char) (d : HookDest) (ok : Bool)
  | packaged (pkg : List Char)
deriving DecidableEq, Repr

/-- Failure modes of `fetchSources` (each `return false` site). -/
inductive FetchErr
  | invalidCustomSyntax (src : List Char)
  | downloadFailed (url : List Char)
  | cloneFailed (url : List Char)
  | missingLocal (p : List Char)
  | copyFailed (p : List Char)
  | extractFailed (p : List Char)
deriving DecidableEq, Repr

/-- Oracles for the external effects of the build. -/
structure Env where
  fileExists : List Char → Bool
  dirNonEmpty : List Char → Bool
  localSourceExists : List Char → Bool
  downloadOk : List Char → List Char → Bool
  cloneOk : List Char → List Char → Bool
  copyOk : List Char → Bool
  isArchive : List Char → Bool
  extractOk : List Char → Bool
  bashOk : List Char → List Char → Bool
  hookCopyOk : List Char → Bool
  packageOk : List Char → Bool
  dirFiles : List (List Char)

def noextractMark : List Char := "NOEXTRACT".toList

def gitPlusPre : List Char := "git+".toList

def dcolon : List Char := "::".toList

def schemeSep : List Char := "://".toList

def archiveExts : List (List Char) :=
  [".tar.xz".toList, ".tar.gz".toList, ".tgz".toList, ".tar.bz2".toList,
   ".tbz2".toList, ".zip".toList]

/-- Strip the first matching known archive extension (strict-suffix check,
as in `extractArchive`). -/
def stripArchiveExtAux : List (List Char) → List Char → List Char
  | [], b => b
  | e :: es, b =>
      if decide (e.length < b.length) && e.isSuffixOf b then b.take (b.length - e.length)
      else stripArchiveExtAux es b

/-- `repoName` with a trailing `.git` removed. -/
def stripDotGit (r : List Char) : List Char :=
  if ".git".toList.isSuffixOf r then r.take (r.length - 4) else r

/-- `extractArchive`: skip when not sniffed as an archive, when the path
contains `NOEXTRACT`, or when the expected output directory already exists
non-empty; otherwise actually unpack. -/
def extractStep (env : Env) (p : List Char) : Bool × List Ev :=
  if !env.isArchive p then (true, [])
  else if hasSub p noextractMark then (true, [])
  else if env.dirNonEmpty (stripArchiveExtAux archiveExts (lastSeg p)) then (true, [])
  else (env.extractOk p, [Ev.extracted p])

/-- Common tail of the URL/local branches: record the artifact and extract
it when sniffed as an archive. -/
def finishArchive (env : Env) (fn : List Char) : Except FetchErr (List Char × List Ev) :=
  if env.isArchive fn then
    let r := extractStep env fn
    if r.1 then Except.ok (fn, Ev.fetched fn :: r.2)
    else Except.error (FetchErr.extractFailed fn)
  else Except.ok (fn, [Ev.fetched fn])

/-- Resolution of one source descriptor (one iteration of the
`fetchSources` loop), yielding the recorded intermediate path and the
events, or the first failure. -/
def fetchOne (env : Env) (src : List Char) : Except FetchErr (List Char × List Ev) :=
  if gitPlusPre.isPrefixOf src then
    let gitUrl := (src.drop 4).takeWhile (fun c => !(c == '#' || c == '?'))
    let repoName := stripDotGit (lastSeg gitUrl)
    if env.dirNonEmpty repoName then Except.ok (repoName, [Ev.fetched repoName])
    else if env.cloneOk gitUrl repoName then Except.ok (repoName, [Ev.fetched repoName])
    else Except.error (FetchErr.cloneFailed gitUrl)
  else
    let cf :=
      match findSS src dcolon with
      | some i => (src.take i, src.drop (i + 2))
      | none => (([] : List Char), ([] : List Char))
    if !cf.1.isEmpty && !cf.2.isEmpty then
      if !hasSub cf.2 schemeSep then Except.error (FetchErr.invalidCustomSyntax src)
      else if !(env.fileExists cf.1 || env.downloadOk cf.2 cf.1) then
        Except.error (FetchErr.downloadFailed cf.2)
      else if env.isArchive cf.1 then
        let r := extractStep env cf.1
        if r.1 then Except.ok (cf.1, Ev.fetched cf.1 :: r.2)
        else Except.error (FetchErr.extractFailed cf.1)
      else Except.ok (cf.1, [Ev.fetched cf.1])
    else if hasSub src schemeSep then
      let fn0 := lastSeg src
      let fn := if fn0.isEmpty then "source.tar".toList else fn0
      if !(env.fileExists fn || env.downloadOk src fn) then
        Except.error (FetchErr.downloadFailed src)
      else finishArchive env fn
    else if !env.localSourceExists src then Except.error (FetchErr.missingLocal src)
    else
      let fn := lastSeg src
      if !(env.fileExists fn || env.copyOk fn) then Except.error (FetchErr.copyFailed fn)
      else finishArchive env fn

structure FetchOut where
  err : Option FetchErr
  paths : List (List Char)
  evs : List Ev
deriving Repr

/-- `fetchSources`: resolve each source in order, stopping at the first
failure. -/
def fetchSources (env : Env) : List (List Char) → FetchOut
  | [] => { err := none, paths := [], evs := [] }
  | s :: rest =>
    match fetchOne env s with
    | Except.error e => { err := some e, paths := [], evs := [] }
    | Except.ok (p, evs) =>
      let r := fetchSources env rest
      { err := r.err, paths := p :: r.paths, evs := evs ++ r.evs }

/-- `runWithBash`: immediate success when both the script body and the
custom-function preamble are empty, otherwise the shell outcome. -/
def runBashM (env : Env) (r : Recipe) (pkg script : List Char) : Bool :=
  if script.isEmpty && r.customFunctions.isEmpty then true else env.bashOk pkg script

/-- The hook-copy events of one package's assemble iteration; copy failures
are recorded but never branch (the C++ catch only logs). -/
def perPkgEvs (env : Env) (_r : Recipe) (single : Bool) (pkg : List Char) : List Ev :=
  env.dirFiles.filterMap (fun f =>
    match routeHook single pkg f with
    | some d => some (Ev.copiedHook pkg f d (env.hookCopyOk f))
    | none => none)

/-- Assemble-script selection: the package-specific function if declared,
else the generic `assemble()` body if non-empty, else a successful no-op. -/
def assembleResultFor (env : Env) (r : Recipe) (pkg : List Char) : Bool :=
  match List.lookup pkg r.assemble_functions with
  | some s => runBashM env r pkg s
  | none =>
      if r.generic_assemble_function.isEmpty then true
      else runBashM env r pkg r.generic_assemble_function

/-- The per-package assemble loop of `createPackage`: hooks, assemble
script, packaging; the first failure aborts the whole build. -/
def assembleLoop (env : Env) (r : Recipe) (single : Bool) :
    List (List Char) → Bool × List Ev
  | [] => (true, [])
  | pkg :: rest =>
    let evs0 := perPkgEvs env r single pkg ++ [Ev.assembled pkg]
    if !(assembleResultFor env r pkg) then (false, evs0)
    else if !(env.packageOk pkg) then (false, evs0)
    else
      let res := assembleLoop env r single rest
      (res.1, evs0 ++ [Ev.packaged pkg] ++ res.2)

def prepareName : List Char := "prepare".toList
def compileName : List Char := "compile".toList
def verifyName : List Char := "verify".toList
def assembleName : List Char := "assemble".toList

def globalPhaseNames : List (List Char) := [prepareName, compileName, verifyName]

/-- Index of a phase in the pipeline order (anything unknown sorts with
`assemble`). -/
def phaseIdx (ph : List Char) : Nat :=
  if ph = prepareName then 0
  else if ph = compileName then 1
  else if ph = verifyName then 2
  else 3

structure BuildOut where
  success : Bool
  evs : List Ev
deriving Repr

/-- `createPackage` after parsing: the empty-package-list guard, source
fetching, the resumable global phases with their `skipping` flag logic, and
the assemble loop.  `resume` is the loaded `.starpack_resume` content
(`none` = fresh run). -/
def pipelineAfterParse (env : Env) (r : Recipe) (resume : Option (List Char × Int)) :
    BuildOut :=
  if r.package_names.isEmpty then { success := false, evs := [] }
  else
    let fr := fetchSources env r.sources
    match fr.err with
    | some _ => { success := false, evs := fr.evs }
    | none =>
      let skipping0 := resume.isSome
      let ph := match resume with | some (p, _) => p | none => []
      let pkg0 := r.package_names.headD []
      let runPrep := !skipping0 || ph == prepareName
      let pEvs := if runPrep then [Ev.ranScript prepareName] else []
      if runPrep && !(runBashM env r pkg0 r.prepare_function) then
        { success := false, evs := fr.evs ++ pEvs }
      else
        let skipping1 := if runPrep then false else skipping0
        let runComp := !skipping1 || ph == compileName
        let cEvs := if runComp then [Ev.ranScript compileName] else []
        if runComp && !(runBashM env r pkg0 r.compile_function) then
          { success := false, evs := fr.evs ++ pEvs ++ cEvs }
        else
          let skipping2 := if runComp then false else skipping1
          let runVer := !skipping2 || ph == verifyName
          let vEvs := if runVer then [Ev.ranScript verifyName] else []
          if runVer && !(runBashM env r pkg0 r.verify_function) then
            { success := false, evs := fr.evs ++ pEvs ++ cEvs ++ vEvs }
          else
            let lr := assembleLoop env r (r.package_names.length == 1) r.package_names
            { success := lr.1, evs := fr.evs ++ pEvs ++ cEvs ++ vEvs ++ lr.2 }

/-- The declared packages actually assembled during a run. -/
def assembledOf (out : BuildOut) : List (List Char) :=
  out.evs.filterMap (fun e =>
    match e with
    | Ev.assembled p => some p
    | _ => none)

/-! ## Concrete environments and recipes used by several claims -/

/-- An environment in which every external operation succeeds, nothing is
cached on disk as a directory, and nothing sniffs as an archive. -/
def envAllOk : Env :=
  { fileExists := fun _ => true
    dirNonEmpty := fun _ => false
    localSourceExists := fun _ => true
    downloadOk := fun _ _ => true
    cloneOk := fun _ _ => true
    copyOk := fun _ => true
    isArchive := fun _ => false
    extractOk := fun _ => true
    bashOk := fun _ _ => true
    hookCopyOk := fun _ => true
    packageOk := fun _ => true
    dirFiles := [] }

/-- `envAllOk` but every file sniffs as an archive. -/
def envArchive : Env :=
  { envAllOk with isArchive := fun _ => true }

/-- The two-package recipe of the end-to-end scenario: packages `a` and `b`,
global dependency `libc`, subpackage dependency `extra` for `b`. -/
def c5Lines : List String :=
  ["package_name = ( \"a\" \"b\" )",
   "dependencies = ( \"libc\" )",
   "dependencies_b = ( \"extra\" )"]

/-- A custom-name source whose descriptor contains `NOEXTRACT` only in its
URL half, so that the resolved local filename `data.bin` does not. -/
def c4Src : List Char := "data.bin::http://host/NOEXTRACT/file".toList

/-- `envAllOk` but every shell invocation fails. -/
def envAssembleFail : Env :=
  { envAllOk with bashOk := fun _ _ => false }

/-- `envAllOk` but every packaging step fails. -/
def envPackageFail : Env :=
  { envAllOk with packageOk := fun _ => false }

/-- A one-package recipe with a non-trivial generic assemble body. -/
def rAssembleFail : Recipe :=
  parseSBs ["package_name = \"a\"", "assemble() \x7b", "echo build", "\x7d"]

/-- Events produced by source fetching. -/
def isFetchEv : Ev → Bool
  | Ev.fetched _ => true
  | Ev.extracted _ => true
  | _ => false

/-- Script-execution events. -/
def isScriptEv : Ev → Bool
  | Ev.ranScript _ => true
  | _ => false

/-! ## Line shapes for the general parser theorems -/

/-- A well-formed `package_version = "x"` line. -/
def pvLineL (x : List Char) : List Char :=
  pvKey ++ (' ' :: '=' :: ' ' :: '"' :: (x ++ ['"']))

/-- A well-formed `description = "y"` line. -/
def descLineL (y : List Char) : List Char :=
  descKey ++ (' ' :: '=' :: ' ' :: '"' :: (y ++ ['"']))

/-- A `symlink: "a:b"` line. -/
def symLineL (a b : List Char) : List Char :=
  symKey ++ (' ' :: '"' :: (a ++ (':' :: (b ++ ['"']))))

/-- A `symlink: "c"` line (payload without structure imposed). -/
def symPlainL (c : List Char) : List Char :=
  symKey ++ (' ' :: '"' :: (c ++ ['"']))

/-- A `symlink:` line with quoted payload `z`. -/
def symGen (z : List Char) : List Char :=
  symKey ++ (' ' :: '"' :: (z ++ ['"']))

/-- The header line `sources=(h` of a (possibly multi-line) array. -/
def srcHdrL (h : List Char) : List Char :=
  srcEq ++ ('(' :: h)

/-- The header line `package_descriptions = (h`. -/
def pdescHdrL (h : List Char) : List Char :=
  pdescKey ++ (' ' :: '=' :: ' ' :: '(' :: h)

/-- The header line `dependencies_<p> = (h`. -/
def subdepHdrL (p h : List Char) : List Char :=
  depUnd ++ (p ++ (' ' :: '=' :: ' ' :: '(' :: h))

/-- The closing line of a multi-line array. -/
def closeL : List Char := [')']

/-- What the inner `getline` loop appends for the continuation lines. -/
def joinedTail (ls : List (List Char)) : List Char :=
  (ls.map (fun l => ' ' :: trimC l)).flatten

/-- The lines of an array split across several lines before its `)`. -/
def splitArrLines (hdr : List Char) (ls : List (List Char)) : List (List Char) :=
  hdr :: (ls ++ [closeL])

/-- The same array written on one line. -/
def oneArrLine (hdr : List Char) (ls : List (List Char)) : List Char :=
  hdr ++ (joinedTail ls ++ [' ', ')'])

/-! ## Helper lemmas about the models -/

lemma isEmpty_false_of_ne_nil {l : List Char} (h : l ≠ []) : l.isEmpty = false := by
  cases l with
  | nil => exact absurd rfl h
  | cons a t => rfl

lemma names_isEmpty_false {l : List (List Char)} (h : l ≠ []) : l.isEmpty = false := by
  cases l with
  | nil => exact absurd rfl h
  | cons a t => rfl

/-- A digit's code point is fixed by ASCII case folding, and nothing else
folds onto it. -/
lemma isDigitC_of_lowerNat_eq {a b : Char} (h : lowerNat a = lowerNat b)
    (hd : isDigitC a = true) : isDigitC b = true := by
  simp only [isDigitC, Bool.and_eq_true, decide_eq_true_eq] at hd ⊢
  simp only [lowerNat] at h
  by_cases ha : (65 ≤ a.toNat && a.toNat ≤ 90) = true
  · rw [if_pos ha] at h
    simp only [Bool.and_eq_true, decide_eq_true_eq] at ha
    omega
  · rw [if_neg ha] at h
    by_cases hb : (65 ≤ b.toNat && b.toNat ≤ 90) = true
    · rw [if_pos hb] at h
      simp only [Bool.and_eq_true, decide_eq_true_eq] at hb
      omega
    · rw [if_neg hb] at h
      omega

/-! ## Generic list lemmas used to evaluate the parser symbolically -/

lemma dropPref_append (pat l : List Char) : dropPref pat (pat ++ l) = some l := by
  induction pat with
  | nil => rfl
  | cons p ps ih => simp [dropPref, ih]

lemma dropPref_none_of (pat conc : List Char)
    (h1 : pat.isPrefixOf conc = false) (h2 : conc.isPrefixOf pat = false) :
    ∀ rest, dropPref pat (conc ++ rest) = none := by
  induction pat generalizing conc with
  | nil => simp [List.isPrefixOf] at h1
  | cons p ps ih =>
    intro rest
    cases conc with
    | nil => simp [List.isPrefixOf] at h2
    | cons c cs =>
      simp only [List.isPrefixOf] at h1 h2
      by_cases hpc : (c == p) = true
      · have hcp : (p == c) = true := by
          have := eq_of_beq hpc
          simp [this]
        rw [hcp, Bool.true_and] at h1
        rw [hpc, Bool.true_and] at h2
        simp only [List.cons_append, dropPref, hpc, if_true]
        exact ih cs h1 h2 rest
      · simp only [List.cons_append, dropPref]
        rw [Bool.not_eq_true] at hpc
        rw [hpc]
        rfl

lemma isPrefixOf_append_self (pat l : List Char) : pat.isPrefixOf (pat ++ l) = true := by
  induction pat with
  | nil => simp [List.isPrefixOf]
  | cons p ps ih => simp [List.isPrefixOf, ih]

lemma isPrefixOf_false_of (pat conc : List Char)
    (h1 : pat.isPrefixOf conc = false) (h2 : conc.isPrefixOf pat = false) :
    ∀ rest, pat.isPrefixOf (conc ++ rest) = false := by
  induction pat generalizing conc with
  | nil => simp [List.isPrefixOf] at h1
  | cons p ps ih =>
    intro rest
    cases conc with
    | nil => simp [List.isPrefixOf] at h2
    | cons c cs =>
      simp only [List.isPrefixOf] at h1 h2 ⊢
      by_cases hpc : (p == c) = true
      · have hcp : (c == p) = true := by
          have := eq_of_beq hpc
          simp [this]
        rw [hpc, Bool.true_and] at h1
        rw [hcp, Bool.true_and] at h2
        simp only [List.cons_append, hpc, Bool.true_and]
        exact ih cs h1 h2 rest
      · rw [Bool.not_eq_true] at hpc
        simp [List.cons_append, hpc]

lemma head?_append_left (l1 l2 : List Char) (c : Char) (h : l1.head? = some c) :
    (l1 ++ l2).head? = some c := by
  cases l1 with
  | nil => simp at h
  | cons a t => simpa using h

lemma trimC_eq_self (t : List Char)
    (h1 : ∀ c, t.head? = some c → isSpaceC c = false)
    (h2 : ∀ c, t.getLast? = some c → isSpaceC c = false) : trimC t = t := by
  cases t with
  | nil => rfl
  | cons a l =>
    have ha : isSpaceC a = false := h1 a rfl
    have hne : a :: l ≠ ([] : List Char) := by simp
    have hd : isSpaceC ((a :: l).getLast hne) = false :=
      h2 _ (List.getLast?_eq_getLast _ hne)
    unfold trimC
    rw [List.dropWhile_cons, ha]
    simp only [Bool.false_eq_true, if_false]
    conv_lhs => rw [← List.dropLast_append_getLast hne]
    rw [List.reverse_append]
    simp only [List.reverse_cons, List.reverse_nil, List.nil_append, List.singleton_append]
    rw [List.dropWhile_cons, hd]
    simp only [Bool.false_eq_true, if_false]
    rw [List.reverse_cons, List.reverse_reverse]
    exact List.dropLast_append_getLast hne

lemma takeWhile_append_all (p : Char → Bool) (l1 l2 : List Char)
    (h : ∀ x ∈ l1, p x = true) : (l1 ++ l2).takeWhile p = l1 ++ l2.takeWhile p := by
  induction l1 with
  | nil => simp
  | cons a t ih =>
    have hpa := h a (by simp)
    simp only [List.cons_append, List.takeWhile_cons, hpa, if_true]
    rw [ih (fun x hx => h x (by simp [hx]))]

lemma dropWhile_append_all (p : Char → Bool) (l1 l2 : List Char)
    (h : ∀ x ∈ l1, p x = true) : (l1 ++ l2).dropWhile p = l2.dropWhile p := by
  induction l1 with
  | nil => simp
  | cons a t ih =>
    have hpa := h a (by simp)
    simp only [List.cons_append, List.dropWhile_cons, hpa, if_true]
    exact ih (fun x hx => h x (by simp [hx]))

lemma contains_append (l1 l2 : List Char) (c : Char) :
    (l1 ++ l2).contains c = (l1.contains c || l2.contains c) := by
  simp only [List.contains, List.elem_eq_mem, List.mem_append]
  by_cases h1 : c ∈ l1 <;> by_cases h2 : c ∈ l2 <;> simp [h1, h2]

lemma contains_append_cons (l1 l2 : List Char) (c : Char) :
    (l1 ++ c :: l2).contains c = true := by
  simp [List.contains, List.elem_eq_mem]

lemma contains_eq_false_forall (l : List Char) (c : Char) (h : l.contains c = false) :
    ∀ x ∈ l, (!(x == c)) = true := by
  simp only [List.contains, List.elem_eq_mem, decide_eq_false_iff_not] at h
  intro x hx
  by_cases hbe : (x == c) = true
  · exact absurd (eq_of_beq hbe ▸ hx) h
  · rw [Bool.not_eq_true] at hbe
    simp [hbe]

lemma getLast?_eq_of_suffix (l1 l2 : List Char) (h : l1 <:+ l2) (hne : l1 ≠ []) :
    l2.getLast? = l1.getLast? := by
  obtain ⟨t, rfl⟩ := h
  exact List.getLast?_append_of_ne_nil t hne

/-- A matched function-header line necessarily ends in `{`. -/
lemma matchFuncHeader_some_getLast (t i : List Char) (h : matchFuncHeader t = some i) :
    t.getLast? = some '{' := by
  unfold matchFuncHeader at h
  cases t with
  | nil => simp at h
  | cons c rest =>
    dsimp only at h
    by_cases hca : (isAlphaC c || c == '_') = true
    · rw [if_pos hca] at h
      split at h
      · rename_i r2 heq
        split at h
        · rename_i heq2
          have hs2 : ['{'] <:+ r2 := by
            rw [← heq2]
            exact List.dropWhile_suffix _
          have hr2 : r2.getLast? = some '{' := by
            rw [getLast?_eq_of_suffix ['{'] r2 hs2 (by simp)]
            rfl
          have hr2ne : r2 ≠ [] := by
            intro hnil
            rw [hnil] at hr2
            simp at hr2
          have hs1 : ('(' :: ')' :: r2) <:+ rest := by
            rw [← heq]
            exact (List.dropWhile_suffix _).trans (List.dropWhile_suffix _)
          have hrest : rest.getLast? = some '{' := by
            obtain ⟨pre, hpre⟩ := hs1
            rw [← hpre]
            have hsp : pre ++ '(' :: ')' :: r2 = (pre ++ ['(', ')']) ++ r2 := by simp
            rw [hsp, List.getLast?_append_of_ne_nil _ hr2ne, hr2]
          have hrestne : rest ≠ [] := by
            intro hnil
            rw [hnil] at hrest
            simp at hrest
          have hcr : (c :: rest) = [c] ++ rest := by simp
          rw [hcr, List.getLast?_append_of_ne_nil _ hrestne, hrest]
        · simp at h
      · simp at h
    · rw [if_neg hca] at h
      simp at h

/-- A line not ending in `{` never opens custom capture. -/
lemma customHeaderTest_false_of_getLast (t : List Char) (h : t.getLast? ≠ some '{') :
    customHeaderTest t = false := by
  unfold customHeaderTest
  cases hm : matchFuncHeader t with
  | none => rfl
  | some i => exact absurd (matchFuncHeader_some_getLast t i hm) h

lemma matchKeyQuoted_none_of_dropPref (key l : List Char) (h : dropPref key l = none) :
    matchKeyQuoted key l = none := by
  unfold matchKeyQuoted
  rw [h]

lemma matchKeyParenMatch_none_of_dropPref (key l : List Char) (h : dropPref key l = none) :
    matchKeyParenMatch key l = none := by
  unfold matchKeyParenMatch
  rw [h]

lemma matchKeyParenSearch_none_of_dropPref (key l : List Char) (h : dropPref key l = none) :
    matchKeyParenSearch key l = none := by
  unfold matchKeyParenSearch
  rw [h]

lemma runLines_append (pre post : List (List Char)) :
    runLines (pre ++ post) = List.foldl stepLine (runLines pre) post := by
  unfold runLines
  rw [List.foldl_append]

/-- Top-level dispatch of one parser step in normal mode (no custom capture,
no open array): a non-empty, non-comment, self-trimmed line that is not a
custom-function header goes through the key-rule chain. -/
lemma stepLine_normal (st : PState) (line : List Char) (c : Char) (rest : List Char)
    (hc : st.in_custom = false) (ha : st.arrMode = none)
    (htrim : trimC line = line)
    (hcons : line = c :: rest) (hhash : (c == '#') = false)
    (hcust : customHeaderTest line = false) :
    stepLine st line = stepKeys st line line := by
  unfold stepLine
  rw [ha]
  dsimp only
  rw [htrim, hcons]
  rw [hcons] at hcust
  dsimp only
  rw [hhash]
  simp only [Bool.false_eq_true, if_false]
  rw [hc, hcust]
  simp

lemma finalize_package_version (st : PState) (h : st.arrMode = none) :
    (finalize st).package_version = st.package_version := by
  unfold finalize
  rw [h]

lemma finalize_description (st : PState) (h : st.arrMode = none) :
    (finalize st).description = st.description := by
  unfold finalize
  rw [h]

lemma finalize_symlinkPairs (st : PState) (h : st.arrMode = none) :
    (finalize st).symlinkPairs = st.symlinkPairs := by
  unfold finalize
  rw [h]

lemma trimC_pvLine (x : List Char) : trimC (pvLineL x) = pvLineL x := by
  apply trimC_eq_self
  · intro c hcc
    have h' : (pvLineL x).head? = some 'p' := head?_append_left pvKey _ 'p' (by decide)
    rw [h'] at hcc
    simp only [Option.some.injEq] at hcc
    subst hcc
    decide
  · intro c hcc
    have hre : pvLineL x = (pvKey ++ (' ' :: '=' :: ' ' :: '"' :: x)) ++ ['"'] := by
      simp [pvLineL]
    rw [hre, List.getLast?_concat] at hcc
    simp only [Option.some.injEq] at hcc
    subst hcc
    decide

lemma step_pvLine (st : PState) (x : List Char)
    (hc : st.in_custom = false) (ha : st.arrMode = none) (hx : noNL x = true) :
    stepLine st (pvLineL x) = { st with package_version := x } := by
  have hlast : (pvLineL x).getLast? = some '"' := by
    have hre : pvLineL x = (pvKey ++ (' ' :: '=' :: ' ' :: '"' :: x)) ++ ['"'] := by
      simp [pvLineL]
    rw [hre, List.getLast?_concat]
  rw [stepLine_normal st (pvLineL x) 'p'
    ("ackage_version".toList ++ (' ' :: '=' :: ' ' :: '"' :: (x ++ ['"'])))
    hc ha (trimC_pvLine x) rfl (by decide)
    (customHeaderTest_false_of_getLast _ (by rw [hlast]; decide))]
  have m1 : matchKeyParenMatch pkgNameKey (pvLineL x) = none :=
    matchKeyParenMatch_none_of_dropPref _ _
      (dropPref_none_of pkgNameKey pvKey (by decide) (by decide) _)
  have m2 : matchKeyQuoted pkgNameKey (pvLineL x) = none :=
    matchKeyQuoted_none_of_dropPref _ _
      (dropPref_none_of pkgNameKey pvKey (by decide) (by decide) _)
  have m3 : pdescKey.isPrefixOf (pvLineL x) = false :=
    isPrefixOf_false_of pdescKey pvKey (by decide) (by decide) _
  have m4 : depUnd.isPrefixOf (pvLineL x) = false :=
    isPrefixOf_false_of depUnd pvKey (by decide) (by decide) _
  have m5 : matchKeyQuoted pvKey (pvLineL x) = some x := by
    unfold matchKeyQuoted
    rw [show dropPref pvKey (pvLineL x)
        = some (' ' :: '=' :: ' ' :: '"' :: (x ++ ['"'])) from dropPref_append _ _]
    simp +decide only [List.dropWhile_cons, List.getLast?_concat, List.dropLast_concat, hx,
      if_true, if_false]
  unfold stepKeys
  simp only [m1, m2, m3, m4, m5, Bool.false_and, Bool.false_eq_true, if_false]

lemma trimC_descLine (y : List Char) : trimC (descLineL y) = descLineL y := by
  apply trimC_eq_self
  · intro c hcc
    have h' : (descLineL y).head? = some 'd' := head?_append_left descKey _ 'd' (by decide)
    rw [h'] at hcc
    simp only [Option.some.injEq] at hcc
    subst hcc
    decide
  · intro c hcc
    have hre : descLineL y = (descKey ++ (' ' :: '=' :: ' ' :: '"' :: y)) ++ ['"'] := by
      simp [descLineL]
    rw [hre, List.getLast?_concat] at hcc
    simp only [Option.some.injEq] at hcc
    subst hcc
    decide

lemma step_descLine (st : PState) (y : List Char)
    (hc : st.in_custom = false) (ha : st.arrMode = none) (hy : noNL y = true) :
    stepLine st (descLineL y) = { st with description := y } := by
  have hlast : (descLineL y).getLast? = some '"' := by
    have hre : descLineL y = (descKey ++ (' ' :: '=' :: ' ' :: '"' :: y)) ++ ['"'] := by
      simp [descLineL]
    rw [hre, List.getLast?_concat]
  rw [stepLine_normal st (descLineL y) 'd'
    ("escription".toList ++ (' ' :: '=' :: ' ' :: '"' :: (y ++ ['"'])))
    hc ha (trimC_descLine y) rfl (by decide)
    (customHeaderTest_false_of_getLast _ (by rw [hlast]; decide))]
  have m1 : matchKeyParenMatch pkgNameKey (descLineL y) = none :=
    matchKeyParenMatch_none_of_dropPref _ _
      (dropPref_none_of pkgNameKey descKey (by decide) (by decide) _)
  have m2 : matchKeyQuoted pkgNameKey (descLineL y) = none :=
    matchKeyQuoted_none_of_dropPref _ _
      (dropPref_none_of pkgNameKey descKey (by decide) (by decide) _)
  have m3 : pdescKey.isPrefixOf (descLineL y) = false :=
    isPrefixOf_false_of pdescKey descKey (by decide) (by decide) _
  have m4 : depUnd.isPrefixOf (descLineL y) = false :=
    isPrefixOf_false_of depUnd descKey (by decide) (by decide) _
  have m5 : matchKeyQuoted pvKey (descLineL y) = none :=
    matchKeyQuoted_none_of_dropPref _ _
      (dropPref_none_of pvKey descKey (by decide) (by decide) _)
  have m6 : matchKeyQuoted descKey (descLineL y) = some y := by
    unfold matchKeyQuoted
    rw [show dropPref descKey (descLineL y)
        = some (' ' :: '=' :: ' ' :: '"' :: (y ++ ['"'])) from dropPref_append _ _]
    simp +decide only [List.dropWhile_cons, List.getLast?_concat, List.dropLast_concat, hy,
      if_true, if_false]
  unfold stepKeys
  simp only [m1, m2, m3, m4, m5, m6, Bool.false_and, Bool.false_eq_true, if_false]

lemma trimC_cons_space (l : List Char) : trimC (' ' :: l) = trimC l := by
  unfold trimC
  rw [List.dropWhile_cons]
  have hsp : isSpaceC ' ' = true := by decide
  rw [hsp, if_pos rfl]

lemma trimC_symGen (z : List Char) : trimC (symGen z) = symGen z := by
  apply trimC_eq_self
  · intro c hcc
    have h' : (symGen z).head? = some 's' := head?_append_left symKey _ 's' (by decide)
    rw [h'] at hcc
    simp only [Option.some.injEq] at hcc
    subst hcc
    decide
  · intro c hcc
    have hre : symGen z = (symKey ++ (' ' :: '"' :: z)) ++ ['"'] := by
      simp [symGen]
    rw [hre, List.getLast?_concat] at hcc
    simp only [Option.some.injEq] at hcc
    subst hcc
    decide

/-- Full evaluation of one parser step on a `symlink: "z"` line in normal
mode: the quotes are stripped, the payload is split at its first colon, the
sides are trimmed, and the pair is recorded only when both are non-empty. -/
lemma step_symGen (st : PState) (z : List Char)
    (hc : st.in_custom = false) (ha : st.arrMode = none) :
    stepLine st (symGen z) =
      (if z.contains ':' = true then
        (if (!(trimC (z.takeWhile (fun c => !(c == ':')))).isEmpty &&
             !(trimC ((z.dropWhile (fun c => !(c == ':'))).tail)).isEmpty) = true then
          { st with symlinkPairs := st.symlinkPairs ++
              [(trimC (z.takeWhile (fun c => !(c == ':'))),
                trimC ((z.dropWhile (fun c => !(c == ':'))).tail))] }
        else st)
      else st) := by
  have hlast : (symGen z).getLast? = some '"' := by
    have hre : symGen z = (symKey ++ (' ' :: '"' :: z)) ++ ['"'] := by simp [symGen]
    rw [hre, List.getLast?_concat]
  rw [stepLine_normal st (symGen z) 's'
    ("ymlink:".toList ++ (' ' :: '"' :: (z ++ ['"'])))
    hc ha (trimC_symGen z) rfl (by decide)
    (customHeaderTest_false_of_getLast _ (by rw [hlast]; decide))]
  have m1 : matchKeyParenMatch pkgNameKey (symGen z) = none :=
    matchKeyParenMatch_none_of_dropPref _ _
      (dropPref_none_of pkgNameKey symKey (by decide) (by decide) _)
  have m2 : matchKeyQuoted pkgNameKey (symGen z) = none :=
    matchKeyQuoted_none_of_dropPref _ _
      (dropPref_none_of pkgNameKey symKey (by decide) (by decide) _)
  have m3 : pdescKey.isPrefixOf (symGen z) = false :=
    isPrefixOf_false_of pdescKey symKey (by decide) (by decide) _
  have m4 : depUnd.isPrefixOf (symGen z) = false :=
    isPrefixOf_false_of depUnd symKey (by decide) (by decide) _
  have m5 : matchKeyQuoted pvKey (symGen z) = none :=
    matchKeyQuoted_none_of_dropPref _ _
      (dropPref_none_of pvKey symKey (by decide) (by decide) _)
  have m6 : matchKeyQuoted descKey (symGen z) = none :=
    matchKeyQuoted_none_of_dropPref _ _
      (dropPref_none_of descKey symKey (by decide) (by decide) _)
  have m7 : matchKeyParenSearch depKey (symGen z) = none :=
    matchKeyParenSearch_none_of_dropPref _ _
      (dropPref_none_of depKey symKey (by decide) (by decide) _)
  have m8 : matchKeyParenSearch bdepKey (symGen z) = none :=
    matchKeyParenSearch_none_of_dropPref _ _
      (dropPref_none_of bdepKey symKey (by decide) (by decide) _)
  have m9 : matchKeyParenSearch clashesKey (symGen z) = none :=
    matchKeyParenSearch_none_of_dropPref _ _
      (dropPref_none_of clashesKey symKey (by decide) (by decide) _)
  have m10 : matchKeyParenSearch givesKey (symGen z) = none :=
    matchKeyParenSearch_none_of_dropPref _ _
      (dropPref_none_of givesKey symKey (by decide) (by decide) _)
  have m11 : matchKeyParenSearch optDepKey (symGen z) = none :=
    matchKeyParenSearch_none_of_dropPref _ _
      (dropPref_none_of optDepKey symKey (by decide) (by decide) _)
  have m12 : srcEq.isPrefixOf (symGen z) = false :=
    isPrefixOf_false_of srcEq symKey (by decide) (by decide) _
  have m13 : symKey.isPrefixOf (symGen z) = true := isPrefixOf_append_self _ _
  unfold stepKeys
  simp only [m1, m2, m3, m4, m5, m6, m7, m8, m9, m10, m11, m12, m13,
    Bool.false_and, Bool.false_eq_true, if_false, if_true]
  unfold stepSymlink
  have hdrop : (symGen z).drop 8 = ' ' :: '"' :: (z ++ ['"']) :=
    List.drop_left symKey _
  rw [hdrop, trimC_cons_space]
  have htr : trimC ('"' :: (z ++ ['"'])) = '"' :: (z ++ ['"']) := by
    apply trimC_eq_self
    · intro c hcc
      simp only [List.head?_cons, Option.some.injEq] at hcc
      subst hcc
      decide
    · intro c hcc
      have hre : ('"' :: (z ++ ['"'])) = ('"' :: z) ++ ['"'] := by simp
      rw [hre, List.getLast?_concat] at hcc
      simp only [Option.some.injEq] at hcc
      subst hcc
      decide
  rw [htr]
  have hgl : ('"' :: (z ++ ['"'])).getLast? = some '"' := by
    have hre : ('"' :: (z ++ ['"'])) = ('"' :: z) ++ ['"'] := by simp
    rw [hre, List.getLast?_concat]
  simp +decide only [List.head?_cons, hgl, if_true, List.drop_succ_cons, List.drop_zero,
    List.dropLast_concat]

lemma update_arrMode_self (st : PState) (h : st.arrMode = none) :
    { st with arrMode := none } = st := by
  cases st
  dsimp only at h
  subst h
  rfl

lemma contains_cons (a b : Char) (l : List Char) :
    (a :: l).contains b = ((b == a) || l.contains b) := by
  simp only [List.contains, List.elem_eq_mem, List.mem_cons]
  by_cases h1 : b = a <;> by_cases h2 : b ∈ l <;> simp [h1, h2]

/-- Consuming the continuation lines and the closing `)` of an open
multi-line array: the accumulated body is the header chunk followed by the
trimmed continuation lines joined with single spaces (plus the space that
precedes the `)`), truncated at that first `)`. -/
lemma foldl_arrMode_consume (k : ArrKey) (ls : List (List Char)) :
    ∀ (st : PState) (arr : List Char),
      arr.contains ')' = false →
      (∀ l ∈ ls, (trimC l).contains ')' = false) →
      List.foldl stepLine { st with arrMode := some (k, arr) } (ls ++ [closeL])
        = applyArr { st with arrMode := none } k (arr ++ (joinedTail ls ++ [' '])) := by
  induction ls with
  | nil =>
    intro st arr harr _
    simp only [List.nil_append, List.foldl_cons, List.foldl_nil]
    unfold stepLine
    dsimp only
    rw [show trimC closeL = [')'] from by decide]
    have hcon : (arr ++ ' ' :: [')']).contains ')' = true := by
      have hsh : arr ++ ' ' :: [')'] = (arr ++ [' ']) ++ ')' :: ([] : List Char) := by simp
      rw [hsh]
      exact contains_append_cons _ _ ')'
    rw [hcon, if_pos rfl]
    have htk : (arr ++ ' ' :: [')']).takeWhile (fun c => !(c == ')')) = arr ++ [' '] := by
      rw [takeWhile_append_all _ arr _ (contains_eq_false_forall arr ')' harr)]
      rw [List.takeWhile_cons]
      simp +decide [List.takeWhile_cons]
    rw [htk]
    simp [joinedTail]
  | cons l ls' ih =>
    intro st arr harr hls
    have harr' : (arr ++ ' ' :: trimC l).contains ')' = false := by
      rw [contains_append, harr, contains_cons]
      simp only [Bool.false_or]
      rw [hls l (by simp)]
      decide
    simp only [List.cons_append, List.foldl_cons]
    have hstep : stepLine { st with arrMode := some (k, arr) } l
        = { st with arrMode := some (k, arr ++ ' ' :: trimC l) } := by
      unfold stepLine
      dsimp only
      rw [harr']
      simp
    rw [hstep]
    rw [ih st (arr ++ ' ' :: trimC l) harr' (fun l' hl' => hls l' (by simp [hl']))]
    have hj : (arr ++ ' ' :: trimC l) ++ (joinedTail ls' ++ [' '])
        = arr ++ (joinedTail (l :: ls') ++ [' ']) := by
      simp [joinedTail]
    rw [hj]

/-- Every character contributed to the joined array body by continuation
lines avoids `)` when every trimmed line does. -/
lemma joinedTail_all_ne (ls : List (List Char))
    (hls : ∀ l ∈ ls, (trimC l).contains ')' = false) :
    ∀ x ∈ joinedTail ls, (!(x == ')')) = true := by
  intro x hx
  unfold joinedTail at hx
  rw [List.mem_flatten] at hx
  obtain ⟨seg, hseg, hxseg⟩ := hx
  rw [List.mem_map] at hseg
  obtain ⟨l, hl, rfl⟩ := hseg
  rcases List.mem_cons.mp hxseg with rfl | hxl
  · decide
  · exact contains_eq_false_forall _ _ (hls l hl) x hxl

lemma not_space_of_word (c : Char) (h : isWordC c = true) : isSpaceC c = false := by
  unfold isWordC isAlphaC isDigitC at h
  unfold isSpaceC
  simp only [Bool.or_eq_true, Bool.and_eq_true, decide_eq_true_eq, beq_iff_eq] at h
  have hgoal : c.toNat ≠ 32 ∧ c.toNat ≠ 9 ∧ c.toNat ≠ 10 ∧ c.toNat ≠ 11 ∧
      c.toNat ≠ 12 ∧ c.toNat ≠ 13 := by
    rcases h with ((h | h) | h) | h
    · omega
    · omega
    · omega
    · subst h
      refine ⟨?_, ?_, ?_, ?_, ?_, ?_⟩ <;> decide
  rw [Bool.eq_false_iff]
  intro hcontra
  simp only [Bool.or_eq_true, beq_iff_eq] at hcontra
  rcases hcontra with ((((h' | h') | h') | h') | h') | h' <;> omega

lemma wordC_ne (x : Char) (hw : isWordC x = true) (c : Char) (hcw : isWordC c = false) :
    (x == c) = false := by
  by_cases hbe : (x == c) = true
  · rw [eq_of_beq hbe] at hw
    rw [hw] at hcw
    exact absurd hcw (by simp)
  · rw [Bool.not_eq_true] at hbe
    exact hbe

lemma trimC_concat_space (X : List Char)
    (h1 : ∀ c, X.head? = some c → isSpaceC c = false)
    (h2 : ∀ c, X.getLast? = some c → isSpaceC c = false) :
    trimC (X ++ [' ']) = X := by
  cases X with
  | nil => decide
  | cons a t =>
    have ha : isSpaceC a = false := h1 a rfl
    have hne : a :: t ≠ ([] : List Char) := by simp
    have hd : isSpaceC ((a :: t).getLast hne) = false :=
      h2 _ (List.getLast?_eq_getLast _ hne)
    unfold trimC
    rw [List.cons_append, List.dropWhile_cons, ha]
    simp only [Bool.false_eq_true, if_false]
    have hrev : (a :: (t ++ [' '])).reverse = ' ' :: (t.reverse ++ [a]) := by simp
    rw [hrev, List.dropWhile_cons, show isSpaceC ' ' = true from by decide, if_pos rfl]
    have hrev2 : t.reverse ++ [a] = (a :: t).getLast hne :: ((a :: t).dropLast).reverse := by
      rw [show (a :: t).getLast hne :: ((a :: t).dropLast).reverse
            = ((a :: t).dropLast ++ [(a :: t).getLast hne]).reverse from by simp,
          List.dropLast_append_getLast hne]
      simp
    rw [hrev2, List.dropWhile_cons, hd]
    simp only [Bool.false_eq_true, if_false]
    rw [show (a :: t).getLast hne :: ((a :: t).dropLast).reverse
          = ((a :: t).dropLast ++ [(a :: t).getLast hne]).reverse from by simp,
        List.reverse_reverse, List.dropLast_append_getLast hne]

lemma mem_of_getLast?C : ∀ {l : List Char} {c : Char}, l.getLast? = some c → c ∈ l := by
  intro l
  induction l with
  | nil =>
    intro c h
    simp at h
  | cons a t ih =>
    intro c h
    cases t with
    | nil =>
      simp at h
      simp [h]
    | cons b u =>
      rw [List.getLast?_cons_cons] at h
      exact List.mem_cons_of_mem a (ih h)

/-- The last character of a header chunk followed by a trailing tail `h` is
never a space when the chunk ends in a non-space and `h`'s last character is
non-space. -/
lemma hdr_getLast_nonspace (pre h : List Char) (d : Char)
    (hpl : pre.getLast? = some d) (hdns : isSpaceC d = false)
    (hH1 : h.getLast?.all (fun c => !(isSpaceC c)) = true) :
    ∀ c, (pre ++ h).getLast? = some c → isSpaceC c = false := by
  intro c hcl
  cases h with
  | nil =>
    rw [List.append_nil, hpl] at hcl
    simp only [Option.some.injEq] at hcl
    subst hcl
    exact hdns
  | cons a t =>
    rw [List.getLast?_append_of_ne_nil pre (by simp)] at hcl
    rw [hcl] at hH1
    simpa using hH1

lemma trimC_srcHdr (h : List Char)
    (hH1 : h.getLast?.all (fun c => !(isSpaceC c)) = true) :
    trimC (srcHdrL h) = srcHdrL h := by
  apply trimC_eq_self
  · intro c hcc
    have h' : (srcHdrL h).head? = some 's' := head?_append_left srcEq _ 's' (by decide)
    rw [h'] at hcc
    simp only [Option.some.injEq] at hcc
    subst hcc
    decide
  · intro c hcc
    rw [show srcHdrL h = (srcEq ++ ['(']) ++ h from by simp [srcHdrL]] at hcc
    exact hdr_getLast_nonspace _ h '(' (by decide) (by decide) hH1 c hcc

/-- A `sources=(…` header never opens custom-function capture: the `=` after
the identifier blocks the `()` pattern of the function-header regex. -/
lemma customTest_srcHdr (h : List Char) : customHeaderTest (srcHdrL h) = false := by
  unfold customHeaderTest
  have hmf : matchFuncHeader (srcHdrL h) = none := by
    rw [show srcHdrL h = 's' :: ("ources".toList ++ ('=' :: '(' :: h)) from rfl]
    unfold matchFuncHeader
    dsimp only
    rw [if_pos (by decide : (isAlphaC 's' || 's' == '_') = true)]
    have hdw : (("ources".toList ++ ('=' :: '(' :: h)).dropWhile isWordC).dropWhile isSpaceC
        = '=' :: '(' :: h := by
      rw [dropWhile_append_all isWordC ("ources".toList) _ (by decide)]
      simp +decide [List.dropWhile_cons]
    rw [hdw]
    rfl
  rw [hmf]

/-- One parser step on a `sources=(h` header line in normal mode opens the
sources array with first chunk `h`. -/
lemma step_srcHdr (st : PState) (h : List Char)
    (hc : st.in_custom = false) (ha : st.arrMode = none)
    (hH1 : h.getLast?.all (fun c => !(isSpaceC c)) = true) :
    stepLine st (srcHdrL h) = startArray st ArrKey.srcs h := by
  rw [stepLine_normal st (srcHdrL h) 's' ("ources=".toList ++ ('(' :: h))
    hc ha (trimC_srcHdr h hH1) rfl (by decide) (customTest_srcHdr h)]
  have m1 : matchKeyParenMatch pkgNameKey (srcHdrL h) = none :=
    matchKeyParenMatch_none_of_dropPref _ _
      (dropPref_none_of pkgNameKey srcEq (by decide) (by decide) _)
  have m2 : matchKeyQuoted pkgNameKey (srcHdrL h) = none :=
    matchKeyQuoted_none_of_dropPref _ _
      (dropPref_none_of pkgNameKey srcEq (by decide) (by decide) _)
  have m3 : pdescKey.isPrefixOf (srcHdrL h) = false :=
    isPrefixOf_false_of pdescKey srcEq (by decide) (by decide) _
  have m4 : depUnd.isPrefixOf (srcHdrL h) = false :=
    isPrefixOf_false_of depUnd srcEq (by decide) (by decide) _
  have m5 : matchKeyQuoted pvKey (srcHdrL h) = none :=
    matchKeyQuoted_none_of_dropPref _ _
      (dropPref_none_of pvKey srcEq (by decide) (by decide) _)
  have m6 : matchKeyQuoted descKey (srcHdrL h) = none :=
    matchKeyQuoted_none_of_dropPref _ _
      (dropPref_none_of descKey srcEq (by decide) (by decide) _)
  have m7 : matchKeyParenSearch depKey (srcHdrL h) = none :=
    matchKeyParenSearch_none_of_dropPref _ _
      (dropPref_none_of depKey srcEq (by decide) (by decide) _)
  have m8 : matchKeyParenSearch bdepKey (srcHdrL h) = none :=
    matchKeyParenSearch_none_of_dropPref _ _
      (dropPref_none_of bdepKey srcEq (by decide) (by decide) _)
  have m9 : matchKeyParenSearch clashesKey (srcHdrL h) = none :=
    matchKeyParenSearch_none_of_dropPref _ _
      (dropPref_none_of clashesKey srcEq (by decide) (by decide) _)
  have m10 : matchKeyParenSearch givesKey (srcHdrL h) = none :=
    matchKeyParenSearch_none_of_dropPref _ _
      (dropPref_none_of givesKey srcEq (by decide) (by decide) _)
  have m11 : matchKeyParenSearch optDepKey (srcHdrL h) = none :=
    matchKeyParenSearch_none_of_dropPref _ _
      (dropPref_none_of optDepKey srcEq (by decide) (by decide) _)
  have m12 : srcEq.isPrefixOf (srcHdrL h) = true := isPrefixOf_append_self _ _
  unfold stepKeys
  simp only [m1, m2, m3, m4, m5, m6, m7, m8, m9, m10, m11, m12,
    Bool.false_and, Bool.false_eq_true, if_false, if_true]
  have hcon : (srcHdrL h).contains '(' = true := contains_append_cons srcEq h '('
  rw [hcon, if_pos rfl]
  have haf : afterFirstParen (srcHdrL h) = h := by
    unfold afterFirstParen
    rw [show srcHdrL h = srcEq ++ '(' :: h from rfl]
    rw [dropWhile_append_all (fun c => !(c == '(')) srcEq ('(' :: h) (by decide)]
    simp +decide [List.dropWhile_cons]
  rw [haf]

lemma trimC_pdescHdr (h : List Char)
    (hH1 : h.getLast?.all (fun c => !(isSpaceC c)) = true) :
    trimC (pdescHdrL h) = pdescHdrL h := by
  apply trimC_eq_self
  · intro c hcc
    have h' : (pdescHdrL h).head? = some 'p' := head?_append_left pdescKey _ 'p' (by decide)
    rw [h'] at hcc
    simp only [Option.some.injEq] at hcc
    subst hcc
    decide
  · intro c hcc
    rw [show pdescHdrL h = (pdescKey ++ [' ', '=', ' ', '(']) ++ h
          from by simp [pdescHdrL]] at hcc
    exact hdr_getLast_nonspace _ h '(' (by decide) (by decide) hH1 c hcc

/-- A `package_descriptions = (…` header never opens custom capture. -/
lemma customTest_pdescHdr (h : List Char) : customHeaderTest (pdescHdrL h) = false := by
  unfold customHeaderTest
  have hmf : matchFuncHeader (pdescHdrL h) = none := by
    rw [show pdescHdrL h
          = 'p' :: ("ackage_descriptions".toList ++ (' ' :: '=' :: ' ' :: '(' :: h)) from rfl]
    unfold matchFuncHeader
    dsimp only
    rw [if_pos (by decide : (isAlphaC 'p' || 'p' == '_') = true)]
    have hdw : (("ackage_descriptions".toList
          ++ (' ' :: '=' :: ' ' :: '(' :: h)).dropWhile isWordC).dropWhile isSpaceC
        = '=' :: ' ' :: '(' :: h := by
      rw [dropWhile_append_all isWordC ("ackage_descriptions".toList) _ (by decide)]
      simp +decide [List.dropWhile_cons]
    rw [hdw]
    rfl
  rw [hmf]

/-- One parser step on a `package_descriptions = (h` header line in normal
mode opens the package-descriptions array with first chunk `h`. -/
lemma step_pdescHdr (st : PState) (h : List Char)
    (hc : st.in_custom = false) (ha : st.arrMode = none)
    (hH1 : h.getLast?.all (fun c => !(isSpaceC c)) = true) :
    stepLine st (pdescHdrL h) = startArray st ArrKey.pdesc h := by
  rw [stepLine_normal st (pdescHdrL h) 'p'
    ("ackage_descriptions".toList ++ (' ' :: '=' :: ' ' :: '(' :: h))
    hc ha (trimC_pdescHdr h hH1) rfl (by decide) (customTest_pdescHdr h)]
  have m1 : matchKeyParenMatch pkgNameKey (pdescHdrL h) = none :=
    matchKeyParenMatch_none_of_dropPref _ _
      (dropPref_none_of pkgNameKey pdescKey (by decide) (by decide) _)
  have m2 : matchKeyQuoted pkgNameKey (pdescHdrL h) = none :=
    matchKeyQuoted_none_of_dropPref _ _
      (dropPref_none_of pkgNameKey pdescKey (by decide) (by decide) _)
  have m3 : pdescKey.isPrefixOf (pdescHdrL h) = true := isPrefixOf_append_self _ _
  have hcon : (pdescHdrL h).contains '(' = true := by
    rw [show pdescHdrL h = (pdescKey ++ [' ', '=', ' ']) ++ '(' :: h
          from by simp [pdescHdrL]]
    exact contains_append_cons _ _ _
  unfold stepKeys
  simp only [m1, m2, m3, hcon, Bool.and_self, if_true]
  have haf : afterFirstParen (pdescHdrL h) = h := by
    unfold afterFirstParen
    rw [show pdescHdrL h = (pdescKey ++ [' ', '=', ' ']) ++ '(' :: h
          from by simp [pdescHdrL]]
    rw [dropWhile_append_all (fun c => !(c == '(')) (pdescKey ++ [' ', '=', ' '])
      ('(' :: h) (by decide)]
    simp +decide [List.dropWhile_cons]
  rw [haf]

lemma trimC_subdepHdr (p h : List Char)
    (hH1 : h.getLast?.all (fun c => !(isSpaceC c)) = true) :
    trimC (subdepHdrL p h) = subdepHdrL p h := by
  apply trimC_eq_self
  · intro c hcc
    have h' : (subdepHdrL p h).head? = some 'd' := head?_append_left depUnd _ 'd' (by decide)
    rw [h'] at hcc
    simp only [Option.some.injEq] at hcc
    subst hcc
    decide
  · intro c hcc
    rw [show subdepHdrL p h = (depUnd ++ (p ++ [' ', '=', ' ', '('])) ++ h
          from by simp [subdepHdrL]] at hcc
    have hpl : (depUnd ++ (p ++ [' ', '=', ' ', '('])).getLast? = some '(' := by
      rw [show depUnd ++ (p ++ [' ', '=', ' ', '('])
            = (depUnd ++ (p ++ [' ', '=', ' '])) ++ ['('] from by simp,
        List.getLast?_concat]
    exact hdr_getLast_nonspace _ h '(' hpl (by decide) hH1 c hcc

/-- A `dependencies_<p> = (…` header (with `<p>` made of word characters)
never opens custom capture. -/
lemma customTest_subdepHdr (p h : List Char) (hp2 : p.all isWordC = true) :
    customHeaderTest (subdepHdrL p h) = false := by
  have hpw : ∀ x ∈ p, isWordC x = true := List.all_eq_true.mp hp2
  unfold customHeaderTest
  have hmf : matchFuncHeader (subdepHdrL p h) = none := by
    rw [show subdepHdrL p h
          = 'd' :: ("ependencies_".toList ++ (p ++ (' ' :: '=' :: ' ' :: '(' :: h))) from rfl]
    unfold matchFuncHeader
    dsimp only
    rw [if_pos (by decide : (isAlphaC 'd' || 'd' == '_') = true)]
    have hdw : ((("ependencies_".toList
          ++ (p ++ (' ' :: '=' :: ' ' :: '(' :: h))).dropWhile isWordC).dropWhile isSpaceC)
        = '=' :: ' ' :: '(' :: h := by
      rw [dropWhile_append_all isWordC ("ependencies_".toList) _ (by decide)]
      rw [dropWhile_append_all isWordC p _ hpw]
      simp +decide [List.dropWhile_cons]
    rw [hdw]
    rfl
  rw [hmf]

/-- One parser step on a `dependencies_<p> = (h` header line in normal mode
opens the per-package dependency array of `<p>` with first chunk `h`. -/
lemma step_subdepHdr (st : PState) (p h : List Char)
    (hc : st.in_custom = false) (ha : st.arrMode = none)
    (hH1 : h.getLast?.all (fun c => !(isSpaceC c)) = true)
    (hp1 : p ≠ []) (hp2 : p.all isWordC = true) :
    stepLine st (subdepHdrL p h) = startArray st (ArrKey.subdep p) h := by
  have hpw : ∀ x ∈ p, isWordC x = true := List.all_eq_true.mp hp2
  rw [stepLine_normal st (subdepHdrL p h) 'd'
    ("ependencies_".toList ++ (p ++ (' ' :: '=' :: ' ' :: '(' :: h)))
    hc ha (trimC_subdepHdr p h hH1) rfl (by decide)
    (customTest_subdepHdr p h hp2)]
  have m1 : matchKeyParenMatch pkgNameKey (subdepHdrL p h) = none :=
    matchKeyParenMatch_none_of_dropPref _ _
      (dropPref_none_of pkgNameKey depUnd (by decide) (by decide) _)
  have m2 : matchKeyQuoted pkgNameKey (subdepHdrL p h) = none :=
    matchKeyQuoted_none_of_dropPref _ _
      (dropPref_none_of pkgNameKey depUnd (by decide) (by decide) _)
  have m3 : pdescKey.isPrefixOf (subdepHdrL p h) = false :=
    isPrefixOf_false_of pdescKey depUnd (by decide) (by decide) _
  have m4 : depUnd.isPrefixOf (subdepHdrL p h) = true := isPrefixOf_append_self _ _
  unfold stepKeys
  simp only [m1, m2, m3, m4, Bool.false_and, Bool.false_eq_true, if_false, if_true]
  unfold stepSubdep
  have hceq : (subdepHdrL p h).contains '=' = true := by
    rw [show subdepHdrL p h = (depUnd ++ (p ++ [' '])) ++ '=' :: (' ' :: '(' :: h)
          from by simp [subdepHdrL]]
    exact contains_append_cons _ _ _
  rw [hceq, if_pos rfl]
  dsimp only
  have hall : ∀ x ∈ (depUnd ++ p) ++ [' '], (!(x == '=')) = true := by
    intro x hx
    rcases List.mem_append.mp hx with hx | hx
    · rcases List.mem_append.mp hx with hx | hx
      · have hdec : ∀ y ∈ depUnd, (!(y == '=')) = true := by decide
        exact hdec x hx
      · simp only [wordC_ne x (hpw x hx) '=' (by decide), Bool.not_false]
    · simp only [List.mem_singleton] at hx
      subst hx
      decide
  have htk : (subdepHdrL p h).takeWhile (fun c => !(c == '=')) = (depUnd ++ p) ++ [' '] := by
    rw [show subdepHdrL p h = ((depUnd ++ p) ++ [' ']) ++ '=' :: (' ' :: '(' :: h)
          from by simp [subdepHdrL]]
    rw [takeWhile_append_all _ _ _ hall]
    simp +decide [List.takeWhile_cons]
  rw [htk]
  have htrim : trimC ((depUnd ++ p) ++ [' ']) = depUnd ++ p := by
    apply trimC_concat_space
    · intro c hcc
      have h' : (depUnd ++ p).head? = some 'd' := head?_append_left depUnd p 'd' (by decide)
      rw [h'] at hcc
      simp only [Option.some.injEq] at hcc
      subst hcc
      decide
    · intro c hcc
      rw [List.getLast?_append_of_ne_nil depUnd hp1] at hcc
      exact not_space_of_word c (hpw c (mem_of_getLast?C hcc))
  rw [htrim]
  have hname : (depUnd ++ p).drop 13 = p := by
    rw [show (13 : Nat) = depUnd.length from rfl]
    exact List.drop_left depUnd p
  rw [hname]
  have hpcon : (subdepHdrL p h).contains '(' = true := by
    rw [show subdepHdrL p h = (depUnd ++ (p ++ [' ', '=', ' '])) ++ '(' :: h
          from by simp [subdepHdrL]]
    exact contains_append_cons _ _ _
  rw [hpcon, if_pos rfl]
  have haf : afterFirstParen (subdepHdrL p h) = h := by
    unfold afterFirstParen
    have hall2 : ∀ x ∈ depUnd ++ (p ++ [' ', '=', ' ']), (!(x == '(')) = true := by
      intro x hx
      rcases List.mem_append.mp hx with hx | hx
      · have hdec : ∀ y ∈ depUnd, (!(y == '(')) = true := by decide
        exact hdec x hx
      · rcases List.mem_append.mp hx with hx | hx
        · simp only [wordC_ne x (hpw x hx) '(' (by decide), Bool.not_false]
        · fin_cases hx <;> decide
    rw [show subdepHdrL p h = (depUnd ++ (p ++ [' ', '=', ' '])) ++ '(' :: h
          from by simp [subdepHdrL]]
    rw [dropWhile_append_all _ _ _ hall2]
    simp +decide [List.dropWhile_cons]
  rw [haf]

/-- The heart of the multi-line-array equivalence: when the header line opens
array `k` with chunk `body` and the one-line variant opens the same array
with the whole joined body and its `)`, parsing the split form and the
one-line form from the same prefix state yields the same parser run. -/
lemma runLines_split_one (pre post ls : List (List Char)) (hdr1 hdr2 body : List Char)
    (k : ArrKey)
    (ha : (runLines pre).arrMode = none)
    (h1 : stepLine (runLines pre) hdr1 = startArray (runLines pre) k body)
    (h2 : stepLine (runLines pre) hdr2
      = startArray (runLines pre) k (body ++ (joinedTail ls ++ [' ', ')'])))
    (hb : body.contains ')' = false)
    (hls : ∀ l ∈ ls, (trimC l).contains ')' = false) :
    runLines (pre ++ splitArrLines hdr1 ls ++ post) = runLines (pre ++ [hdr2] ++ post) := by
  have key : runLines (pre ++ splitArrLines hdr1 ls) = runLines (pre ++ [hdr2]) := by
    rw [runLines_append, runLines_append]
    unfold splitArrLines
    rw [List.foldl_cons, h1]
    unfold startArray
    rw [hb]
    simp only [Bool.false_eq_true, if_false]
    rw [foldl_arrMode_consume k ls (runLines pre) body hb hls]
    rw [update_arrMode_self _ ha]
    rw [List.foldl_cons, List.foldl_nil, h2]
    unfold startArray
    have hcon : (body ++ (joinedTail ls ++ [' ', ')'])).contains ')' = true := by
      rw [show body ++ (joinedTail ls ++ [' ', ')'])
            = (body ++ (joinedTail ls ++ [' '])) ++ ')' :: ([] : List Char) from by simp]
      exact contains_append_cons _ _ _
    rw [hcon, if_pos rfl]
    have hall : ∀ x ∈ body ++ (joinedTail ls ++ [' ']), (!(x == ')')) = true := by
      intro x hx
      rcases List.mem_append.mp hx with hx | hx
      · exact contains_eq_false_forall body ')' hb x hx
      · rcases List.mem_append.mp hx with hx | hx
        · exact joinedTail_all_ne ls hls x hx
        · simp only [List.mem_singleton] at hx
          subst hx
          decide
    have htw : (body ++ (joinedTail ls ++ [' ', ')'])).takeWhile (fun c => !(c == ')'))
        = body ++ (joinedTail ls ++ [' ']) := by
      rw [show body ++ (joinedTail ls ++ [' ', ')'])
            = (body ++ (joinedTail ls ++ [' '])) ++ ')' :: ([] : List Char) from by simp]
      rw [takeWhile_append_all _ _ _ hall]
      simp +decide [List.takeWhile_cons]
    rw [htw]
  calc runLines (pre ++ splitArrLines hdr1 ls ++ post)
      = List.foldl stepLine (runLines (pre ++ splitArrLines hdr1 ls)) post :=
        runLines_append _ _
    _ = List.foldl stepLine (runLines (pre ++ [hdr2])) post := by rw [key]
    _ = runLines (pre ++ [hdr2] ++ post) := (runLines_append _ _).symm

lemma extractStep_evs_all (env : Env) (p : List Char) :
    (extractStep env p).2.all isFetchEv = true := by
  unfold extractStep
  repeat' split
  all_goals rfl

lemma fetchOne_evs_all (env : Env) (s p : List Char) (evs : List Ev)
    (h : fetchOne env s = Except.ok (p, evs)) : evs.all isFetchEv = true := by
  unfold fetchOne finishArchive at h
  dsimp only at h
  repeat' split at h
  all_goals first
    | (simp only [Except.ok.injEq, Prod.mk.injEq] at h
       obtain ⟨hp2, hevs2⟩ := h
       subst hevs2
       simp [isFetchEv, extractStep_evs_all])
    | simp at h

lemma fetchSources_evs_all (env : Env) (l : List (List Char)) :
    (fetchSources env l).evs.all isFetchEv = true := by
  induction l with
  | nil => rfl
  | cons s rest ih =>
    unfold fetchSources
    cases hfo : fetchOne env s with
    | error e => rfl
    | ok pe =>
      obtain ⟨p, evs⟩ := pe
      simp only [List.all_append, Bool.and_eq_true]
      exact ⟨fetchOne_evs_all env s p evs hfo, ih⟩

lemma ranScript_notin_fetch (env : Env) (l : List (List Char)) (g : List Char) :
    Ev.ranScript g ∉ (fetchSources env l).evs := by
  intro hmem
  have hall := List.all_eq_true.mp (fetchSources_evs_all env l) _ hmem
  simp [isFetchEv] at hall

lemma assembled_notin_fetch (env : Env) (l : List (List Char)) (pkg : List Char) :
    Ev.assembled pkg ∉ (fetchSources env l).evs := by
  intro hmem
  have hall := List.all_eq_true.mp (fetchSources_evs_all env l) _ hmem
  simp [isFetchEv] at hall

lemma runBashM_ok (env : Env) (r : Recipe) (pkg script : List Char)
    (hbash : ∀ p s, env.bashOk p s = true) : runBashM env r pkg script = true := by
  unfold runBashM
  split
  · rfl
  · exact hbash pkg script

lemma assembleResultFor_ok (env : Env) (r : Recipe) (pkg : List Char)
    (hbash : ∀ p s, env.bashOk p s = true) : assembleResultFor env r pkg = true := by
  unfold assembleResultFor
  repeat' split
  all_goals first
    | rfl
    | exact runBashM_ok env r pkg _ hbash

lemma perPkgEvs_no_script (env : Env) (r : Recipe) (single : Bool) (pkg : List Char) :
    (perPkgEvs env r single pkg).all (fun e => !isScriptEv e) = true := by
  rw [List.all_eq_true]
  intro e he
  obtain ⟨f, _, hmap⟩ := List.mem_filterMap.mp he
  cases hr : routeHook single pkg f <;> rw [hr] at hmap
  · simp at hmap
  · simp only [Option.some.injEq] at hmap
    subst hmap
    rfl

/-- When every shell invocation and every packaging step succeeds, the
assemble loop succeeds, assembles every declared package, and produces no
script events of its own. -/
lemma assembleLoop_ok (env : Env) (r : Recipe) (single : Bool)
    (hbash : ∀ p s, env.bashOk p s = true) (hpack : ∀ p, env.packageOk p = true) :
    ∀ pkgs : List (List Char),
      (assembleLoop env r single pkgs).1 = true ∧
      (assembleLoop env r single pkgs).2.all (fun e => !isScriptEv e) = true ∧
      ∀ pkg ∈ pkgs, Ev.assembled pkg ∈ (assembleLoop env r single pkgs).2 := by
  intro pkgs
  induction pkgs with
  | nil => exact ⟨rfl, rfl, by simp⟩
  | cons pkg rest ih =>
    obtain ⟨ih1, ih2, ih3⟩ := ih
    unfold assembleLoop
    rw [assembleResultFor_ok env r pkg hbash, hpack pkg]
    simp only [Bool.not_true, Bool.false_eq_true, if_false]
    refine ⟨ih1, ?_, ?_⟩
    · rw [List.all_eq_true]
      intro x hx
      have hx' : x ∈ perPkgEvs env r single pkg ∨ x = Ev.assembled pkg ∨
          x = Ev.packaged pkg ∨ x ∈ (assembleLoop env r single rest).2 := by
        simpa [List.mem_append, or_assoc] using hx
      rcases hx' with hx' | rfl | rfl | hx'
      · exact List.all_eq_true.mp (perPkgEvs_no_script env r single pkg) x hx'
      · rfl
      · rfl
      · exact List.all_eq_true.mp ih2 x hx'
    · intro pkg' hpkg'
      rcases List.mem_cons.mp hpkg' with heq | hmem
      · subst heq
        simp [List.mem_append]
      · exact List.mem_append_right _ (ih3 pkg' hmem)

lemma ranScript_notin_loop (env : Env) (r : Recipe) (single : Bool)
    (hbash : ∀ p s, env.bashOk p s = true) (hpack : ∀ p, env.packageOk p = true)
    (pkgs : List (List Char)) (g : List Char) :
    Ev.ranScript g ∉ (assembleLoop env r single pkgs).2 := by
  intro hmem
  have hall := List.all_eq_true.mp ((assembleLoop_ok env r single hbash hpack pkgs).2.1) _ hmem
  simp [isScriptEv] at hall

/-- Reduction of the pipeline under a loaded resume state when every script
invocation succeeds: the global phases that run are exactly those selected
by the `skipping` flag chain, and the assemble loop always runs. -/
lemma pipeline_resume_shape (env : Env) (r : Recipe) (ph : List Char) (j : Int)
    (hpkgs : r.package_names ≠ [])
    (hfetch : (fetchSources env r.sources).err = none)
    (hrb : ∀ p s, runBashM env r p s = true) :
    pipelineAfterParse env r (some (ph, j)) =
      { success := (assembleLoop env r (r.package_names.length == 1) r.package_names).1,
        evs := (fetchSources env r.sources).evs
          ++ (if ph == prepareName then [Ev.ranScript prepareName] else [])
          ++ (if ph == prepareName || ph == compileName then
                [Ev.ranScript compileName] else [])
          ++ (if ph == prepareName || ph == compileName || ph == verifyName then
                [Ev.ranScript verifyName] else [])
          ++ (assembleLoop env r (r.package_names.length == 1) r.package_names).2 } := by
  have hne := names_isEmpty_false hpkgs
  unfold pipelineAfterParse
  dsimp only
  rw [hne, hfetch]
  dsimp only
  simp only [hrb, Bool.not_true, Bool.and_false, Bool.false_eq_true, if_false,
    Option.isSome_some, Bool.false_or]
  cases he1 : (ph == prepareName) <;> cases he2 : (ph == compileName) <;>
    cases he3 : (ph == verifyName) <;> simp [he1, he2, he3]

/-- Under a loaded resume state with all scripts succeeding: the run
succeeds, a global phase's script runs iff its pipeline position is at or
after the recorded phase's, and every declared package is assembled. -/
lemma pipeline_resume_events (env : Env) (r : Recipe) (ph : List Char) (j : Int)
    (hpkgs : r.package_names ≠ [])
    (hfetch : (fetchSources env r.sources).err = none)
    (hbash : ∀ p s, env.bashOk p s = true)
    (hpack : ∀ p, env.packageOk p = true)
    (hph : ph ∈ [prepareName, compileName, verifyName, assembleName]) :
    (pipelineAfterParse env r (some (ph, j))).success = true ∧
    (∀ g ∈ globalPhaseNames,
      (Ev.ranScript g ∈ (pipelineAfterParse env r (some (ph, j))).evs ↔
        phaseIdx ph ≤ phaseIdx g)) ∧
    ∀ pkg ∈ r.package_names, Ev.assembled pkg ∈ (pipelineAfterParse env r (some (ph, j))).evs := by
  have hrb : ∀ p s, runBashM env r p s = true := fun p s => runBashM_ok env r p s hbash
  have hshape := pipeline_resume_shape env r ph j hpkgs hfetch hrb
  have hloop := assembleLoop_ok env r (r.package_names.length == 1) hbash hpack r.package_names
  refine ⟨?_, ?_, ?_⟩
  · rw [hshape]
    exact hloop.1
  · intro g hg
    rw [hshape]
    fin_cases hph <;> fin_cases hg <;>
      simp +decide [List.mem_append, phaseIdx, prepareName, compileName, verifyName,
        assembleName,
        ranScript_notin_fetch env r.sources,
        ranScript_notin_loop env r (r.package_names.length == 1) hbash hpack r.package_names]
  · intro pkg hpkg
    rw [hshape]
    have hmem := hloop.2.2 pkg hpkg
    simp only [List.mem_append]
    tauto

/-- Reduction of a fresh (non-resuming) pipeline run when every script
invocation succeeds: all three global phases run, then the assemble loop. -/
lemma pipeline_fresh_shape (env : Env) (r : Recipe)
    (hpkgs : r.package_names ≠ [])
    (hfetch : (fetchSources env r.sources).err = none)
    (hrb : ∀ p s, runBashM env r p s = true) :
    pipelineAfterParse env r none =
      { success := (assembleLoop env r (r.package_names.length == 1) r.package_names).1,
        evs := (fetchSources env r.sources).evs
          ++ [Ev.ranScript prepareName] ++ [Ev.ranScript compileName]
          ++ [Ev.ranScript verifyName]
          ++ (assembleLoop env r (r.package_names.length == 1) r.package_names).2 } := by
  have hne := names_isEmpty_false hpkgs
  unfold pipelineAfterParse
  dsimp only
  rw [hne, hfetch]
  dsimp only
  simp [hrb]

/-- With every script, packaging step and source fetch succeeding, any run
— whatever resume state was loaded and whatever the hook-copy outcomes are —
succeeds and assembles every declared package. -/
lemma pipeline_allok (env : Env) (r : Recipe) (resume : Option (List Char × Int))
    (hpkgs : r.package_names ≠ [])
    (hfetch : (fetchSources env r.sources).err = none)
    (hbash : ∀ p s, env.bashOk p s = true)
    (hpack : ∀ p, env.packageOk p = true) :
    (pipelineAfterParse env r resume).success = true ∧
    ∀ pkg ∈ r.package_names, Ev.assembled pkg ∈ (pipelineAfterParse env r resume).evs := by
  have hrb : ∀ p s, runBashM env r p s = true := fun p s => runBashM_ok env r p s hbash
  have hloop := assembleLoop_ok env r (r.package_names.length == 1) hbash hpack r.package_names
  cases resume with
  | none =>
    rw [pipeline_fresh_shape env r hpkgs hfetch hrb]
    refine ⟨hloop.1, fun pkg hpkg => ?_⟩
    have hmem := hloop.2.2 pkg hpkg
    simp only [List.mem_append]
    tauto
  | some pj =>
    obtain ⟨ph, j⟩ := pj
    rw [pipeline_resume_shape env r ph j hpkgs hfetch hrb]
    refine ⟨hloop.1, fun pkg hpkg => ?_⟩
    have hmem := hloop.2.2 pkg hpkg
    simp only [List.mem_append]
    tauto

end StarpackModel

namespace StarpackClaims

open StarpackModel

/-! ## C5 -/

/-- **C5.** For the recipe `package_name = ( "a" "b" )`,
`dependencies = ( "libc" )`, `dependencies_b = ( "extra" )`, the metadata
built for package `a` has dependency list `["libc"]` and the metadata for
package `b` has `["libc","extra"]`: the global list concatenated with the
subpackage list, in order, without deduplication. -/
theorem c5_dependency_merge :
    (parseSBs c5Lines).package_names = ["a".toList, "b".toList] ∧
    (packageMetadataFor (parseSBs c5Lines) 0).name = "a".toList ∧
    (packageMetadataFor (parseSBs c5Lines) 0).dependencies = ["libc".toList] ∧
    (packageMetadataFor (parseSBs c5Lines) 1).name = "b".toList ∧
    (packageMetadataFor (parseSBs c5Lines) 1).dependencies
      = ["libc".toList, "extra".toList] := by
  decide

/-! ## C6 -/

/-- **C6.** In a single-package build for package `foo`, recipe-directory
files `foo-pre.hook` and `pre.hook` both route to the package hooks
directory under the stripped name `pre.hook`, while `01-setup.hook` routes
to the universal-hooks directory under its original name. -/
theorem c6_hook_routing :
    routeHook true "foo".toList "foo-pre.hook".toList
      = some (HookDest.hooksDir "pre.hook".toList) ∧
    routeHook true "foo".toList "pre.hook".toList
      = some (HookDest.hooksDir "pre.hook".toList) ∧
    routeHook true "foo".toList "01-setup.hook".toList
      = some (HookDest.universal "01-setup.hook".toList) := by
  decide

/-! ## C1 -/

/-- **C1 counterexample.** The claim includes `dependencies` among the keys
whose parenthesized body may be split across lines, but `parse_starbuild`
matches `dependencies = ( … )` with a single-line regex: the split form
extracts nothing while the one-line form extracts `["libc"]`. -/
theorem c1_counterexample :
    (parseSBs ["dependencies = (", "\"libc\"", ")"]).dependencies = [] ∧
    (parseSBs ["dependencies = ( \"libc\" )"]).dependencies = ["libc".toList] ∧
    (parseSBs ["dependencies = (", "\"libc\"", ")"]).dependencies
      ≠ (parseSBs ["dependencies = ( \"libc\" )"]).dependencies := by
  decide

/-! ## C4 -/

/-- **C4 counterexample.** A descriptor containing `NOEXTRACT` (in its URL
half) whose resolved local file `data.bin` sniffs as an archive: resolution
still extracts the file, because the code checks the resolved filename, not
the descriptor. -/
theorem c4_counterexample :
    hasSub c4Src noextractMark = true ∧
    fetchOne envArchive c4Src
      = Except.ok ("data.bin".toList,
          [Ev.fetched "data.bin".toList, Ev.extracted "data.bin".toList]) :=
  ⟨by decide, by rfl⟩

/-- **C4 (amended).** Suppression is keyed on the resolved local file path
handed to `extractArchive`: whenever that path contains the literal
substring `NOEXTRACT`, extraction is treated as success and nothing is
unpacked, even when content sniffing recognizes the file as an archive. -/
theorem c4_amended_noextract_suppresses (env : Env) (p : List Char)
    (h : hasSub p noextractMark = true) : extractStep env p = (true, []) := by
  unfold extractStep
  rw [h]
  split
  · rfl
  · rfl

/-- Witness for `c4_amended_noextract_suppresses` at the concrete path
`NOEXTRACT-src.tar` in an environment that sniffs it as an archive. -/
theorem c4_amended_noextract_suppresses_witness :
    hasSub "NOEXTRACT-src.tar".toList noextractMark = true ∧
    extractStep envArchive "NOEXTRACT-src.tar".toList = (true, []) :=
  ⟨by decide, c4_amended_noextract_suppresses envArchive "NOEXTRACT-src.tar".toList (by decide)⟩

/-! ## C8 -/

/-! ## C10 -/

/-- **C10.** In a multi-package build whose package names are non-empty, do
not begin with a digit, and contain no regex metacharacters (the embedding
interpolates the name literally, as the faithful reading of the source
pattern for such names), no file is ever routed to the universal-hooks
directory: every match must begin with `<name>-`, so a matching file starts
with the package name's first character, which is not a digit. -/
theorem c10_multi_build_no_universal_hooks
    (pkgs files : List (List Char)) (p f d : List Char)
    (hmulti : 2 ≤ pkgs.length)
    (hnames : ∀ q ∈ pkgs, q ≠ [] ∧ headDigit q = false ∧
        ∀ c ∈ q, (isAlphaC c = true ∨ isDigitC c = true ∨ c = '_' ∨ c = '-' ∨ c = '+')) :
    (p, f, HookDest.universal d) ∉ hookRoutesFor pkgs files := by
  intro hmem
  unfold hookRoutesFor at hmem
  rw [List.mem_flatten] at hmem
  obtain ⟨l, hl, hel⟩ := hmem
  rw [List.mem_map] at hl
  obtain ⟨q, hq, rfl⟩ := hl
  rw [List.mem_filterMap] at hel
  obtain ⟨f', hf', hroute⟩ := hel
  have hsingle : (pkgs.length == 1) = false := by
    simp only [beq_eq_false_iff_ne, ne_eq]
    omega
  rw [hsingle] at hroute
  cases hrh : routeHook false q f' with
  | none => rw [hrh] at hroute; simp at hroute
  | some dest =>
    rw [hrh] at hroute
    simp only [Option.map_some', Option.some.injEq, Prod.mk.injEq] at hroute
    obtain ⟨hpq, hff, hdest⟩ := hroute
    unfold routeHook at hrh
    simp only [Bool.false_eq_true, if_false] at hrh
    cases hmm : matchHookMulti q f' with
    | none => rw [hmm] at hrh; simp at hrh
    | some phase =>
      rw [hmm] at hrh
      simp only [Option.some.injEq] at hrh
      obtain ⟨hqne, hqd, -⟩ := hnames q hq
      have hfd : headDigit f' = true := by
        by_contra hfd
        rw [Bool.not_eq_true] at hfd
        rw [hfd] at hrh
        simp only [Bool.false_eq_true, if_false] at hrh
        rw [← hrh] at hdest
        simp at hdest
      unfold matchHookMulti at hmm
      cases hdp : dropPrefI (q ++ ['-']) f' with
      | none => rw [hdp] at hmm; simp at hmm
      | some rest =>
        cases q with
        | nil => exact absurd rfl hqne
        | cons c q' =>
          cases f' with
          | nil => simp [dropPrefI] at hdp
          | cons c' f'' =>
            rw [List.cons_append] at hdp
            unfold dropPrefI at hdp
            by_cases hlc : (lowerNat c' == lowerNat c) = true
            · have hdig' : isDigitC c' = true := hfd
              have hle : lowerNat c' = lowerNat c := by simpa using hlc
              have hdig : isDigitC c = true :=
                isDigitC_of_lowerNat_eq hle hdig'
              have hhd : headDigit (c :: q') = true := hdig
              rw [hhd] at hqd
              exact absurd hqd (by simp)
            · rw [Bool.not_eq_true] at hlc
              rw [hlc] at hdp
              simp at hdp

/-- Witness for `c10_multi_build_no_universal_hooks`: the two-package build
`{foo, bar}` with a digit-initial file present never routes to the
universal-hooks directory. -/
theorem c10_multi_build_no_universal_hooks_witness :
    2 ≤ ([ "foo".toList, "bar".toList ] : List (List Char)).length ∧
    ("foo".toList, "01-x.hook".toList, HookDest.universal "01-x.hook".toList) ∉
      hookRoutesFor ["foo".toList, "bar".toList]
        ["foo-pre.hook".toList, "01-x.hook".toList] :=
  ⟨by decide,
   c10_multi_build_no_universal_hooks
     ["foo".toList, "bar".toList] ["foo-pre.hook".toList, "01-x.hook".toList]
     "foo".toList "01-x.hook".toList "01-x.hook".toList
     (by decide) (by decide)⟩

/-! ## C3 -/

/-- **C3.** A source descriptor `name::rest` (first `::` exactly after
`name`, both sides non-empty, not a `git+` source) whose right side
contains no `://` makes `fetchSources` fail with the
invalid-custom-source-syntax error; when such a descriptor heads the source
list the whole build returns failure having produced no events at all — in
particular no prepare/compile/verify/assemble script runs. -/
theorem c3_invalid_custom_source
    (env : Env) (r : Recipe) (resume : Option (List Char × Int))
    (name rest : List Char) (more : List (List Char))
    (hsplit : findSS (name ++ dcolon ++ rest) dcolon = some name.length)
    (hname : name ≠ []) (hrest : rest ≠ [])
    (hnourl : hasSub rest schemeSep = false)
    (hnogit : gitPlusPre.isPrefixOf (name ++ dcolon ++ rest) = false)
    (hsrcs : r.sources = (name ++ dcolon ++ rest) :: more) :
    fetchOne env (name ++ dcolon ++ rest)
      = Except.error (FetchErr.invalidCustomSyntax (name ++ dcolon ++ rest)) ∧
    (fetchSources env r.sources).err
      = some (FetchErr.invalidCustomSyntax (name ++ dcolon ++ rest)) ∧
    pipelineAfterParse env r resume = { success := false, evs := [] } := by
  have htake : (name ++ dcolon ++ rest).take name.length = name := by
    rw [List.append_assoc]
    exact List.take_left name (dcolon ++ rest)
  have hdrop : (name ++ dcolon ++ rest).drop (name.length + 2) = rest := by
    have h2 : name.length + 2 = (name ++ dcolon).length := by
      simp [dcolon]
    rw [h2]
    exact List.drop_left (name ++ dcolon) rest
  have hfo : fetchOne env (name ++ dcolon ++ rest)
      = Except.error (FetchErr.invalidCustomSyntax (name ++ dcolon ++ rest)) := by
    unfold fetchOne
    rw [hnogit, hsplit]
    simp only [htake, hdrop, isEmpty_false_of_ne_nil hname,
      isEmpty_false_of_ne_nil hrest, hnourl, Bool.not_false, Bool.and_self,
      if_true, Bool.false_eq_true, if_false]
  have hfs : fetchSources env r.sources
      = { err := some (FetchErr.invalidCustomSyntax (name ++ dcolon ++ rest)),
          paths := [], evs := [] } := by
    rw [hsrcs]
    unfold fetchSources
    rw [hfo]
  refine ⟨hfo, by rw [hfs], ?_⟩
  unfold pipelineAfterParse
  rw [hfs]
  split
  · rfl
  · rfl

/-- Witness for `c3_invalid_custom_source` at the spec's example descriptor
`foo::not-a-url`. -/
theorem c3_invalid_custom_source_witness :
    findSS ("foo".toList ++ dcolon ++ "not-a-url".toList) dcolon
      = some ("foo".toList).length ∧
    pipelineAfterParse envAllOk
        { package_names := ["foo".toList], package_descriptions := [],
          subpackageDependencies := [], package_version := [], description := [],
          dependencies := [], build_dependencies := [], clashes := [], gives := [],
          optional_dependencies := [],
          sources := [("foo".toList ++ dcolon ++ "not-a-url".toList)],
          prepare_function := [], compile_function := [], verify_function := [],
          generic_assemble_function := [], assemble_functions := [],
          symlinkPairs := [], customFunctions := [] } none
      = { success := false, evs := [] } :=
  ⟨by decide,
   (c3_invalid_custom_source envAllOk
     { package_names := ["foo".toList], package_descriptions := [],
       subpackageDependencies := [], package_version := [], description := [],
       dependencies := [], build_dependencies := [], clashes := [], gives := [],
       optional_dependencies := [],
       sources := [("foo".toList ++ dcolon ++ "not-a-url".toList)],
       prepare_function := [], compile_function := [], verify_function := [],
       generic_assemble_function := [], assemble_functions := [],
       symlinkPairs := [], customFunctions := [] } none
     "foo".toList "not-a-url".toList []
     (by decide) (by decide) (by decide) (by decide) (by decide) rfl).2.2⟩

/-- **C8 counterexample.** For `a = "x:y"`, `b = "z"` (both non-empty and
trimmed), the line `symlink: "x:y:z"` does not append `("x:y", "z")`: the
payload is split at its *first* colon, yielding `("x", "y:z")`. -/
theorem c8_counterexample :
    (parseSBs ["symlink: \"x:y:z\""]).symlinkPairs
      = [("x".toList, "y:z".toList)] ∧
    (parseSBs ["symlink: \"x:y:z\""]).symlinkPairs
      ≠ [("x:y".toList, "z".toList)] := by
  decide

end StarpackClaims

namespace StarpackClaims2

open StarpackModel

/-! ## C2 -/

/-- **C2.** With sources fetchable and every script and packaging step
succeeding: when the persisted resume state records phase `compile`, a
restarted run does not execute the prepare script, executes the compile and
verify scripts, and assembles every declared package; more generally, for a
recorded phase among prepare/compile/verify/assemble, a global phase's
script runs iff its pipeline position is at or after the recorded phase's
position, and the per-package assemble step runs for every package. -/
theorem c2_resume_phase_skipping (env : Env) (r : Recipe) (j : Int)
    (hpkgs : r.package_names ≠ [])
    (hfetch : (fetchSources env r.sources).err = none)
    (hbash : ∀ p s, env.bashOk p s = true)
    (hpack : ∀ p, env.packageOk p = true) :
    ((pipelineAfterParse env r (some (compileName, j))).success = true ∧
     Ev.ranScript prepareName ∉ (pipelineAfterParse env r (some (compileName, j))).evs ∧
     Ev.ranScript compileName ∈ (pipelineAfterParse env r (some (compileName, j))).evs ∧
     Ev.ranScript verifyName ∈ (pipelineAfterParse env r (some (compileName, j))).evs ∧
     ∀ pkg ∈ r.package_names,
       Ev.assembled pkg ∈ (pipelineAfterParse env r (some (compileName, j))).evs) ∧
    ∀ ph ∈ [prepareName, compileName, verifyName, assembleName],
      (pipelineAfterParse env r (some (ph, j))).success = true ∧
      (∀ g ∈ globalPhaseNames,
        (Ev.ranScript g ∈ (pipelineAfterParse env r (some (ph, j))).evs ↔
          phaseIdx ph ≤ phaseIdx g)) ∧
      ∀ pkg ∈ r.package_names,
        Ev.assembled pkg ∈ (pipelineAfterParse env r (some (ph, j))).evs := by
  have hgen := fun ph hph =>
    pipeline_resume_events env r ph j hpkgs hfetch hbash hpack hph
  refine ⟨?_, fun ph hph => hgen ph hph⟩
  obtain ⟨hs, hmem, hasm⟩ := hgen compileName (by simp)
  refine ⟨hs, ?_, ?_, ?_, hasm⟩
  · intro hin
    have h01 := (hmem prepareName (by simp [globalPhaseNames])).mp hin
    revert h01
    decide
  · exact (hmem compileName (by simp [globalPhaseNames])).mpr (by decide)
  · exact (hmem verifyName (by simp [globalPhaseNames])).mpr (by decide)

/-- Witness for `c2_resume_phase_skipping`: the two-package end-to-end
recipe under the all-success environment, resuming at `compile`. -/
theorem c2_resume_phase_skipping_witness :
    Ev.ranScript prepareName ∉
      (pipelineAfterParse envAllOk (parseSBs c5Lines) (some (compileName, 0))).evs ∧
    Ev.ranScript compileName ∈
      (pipelineAfterParse envAllOk (parseSBs c5Lines) (some (compileName, 0))).evs ∧
    Ev.ranScript verifyName ∈
      (pipelineAfterParse envAllOk (parseSBs c5Lines) (some (compileName, 0))).evs :=
  ⟨(c2_resume_phase_skipping envAllOk (parseSBs c5Lines) 0 (by decide) rfl
      (fun _ _ => rfl) (fun _ => rfl)).1.2.1,
   (c2_resume_phase_skipping envAllOk (parseSBs c5Lines) 0 (by decide) rfl
      (fun _ _ => rfl) (fun _ => rfl)).1.2.2.1,
   (c2_resume_phase_skipping envAllOk (parseSBs c5Lines) 0 (by decide) rfl
      (fun _ _ => rfl) (fun _ => rfl)).1.2.2.2.1⟩

/-! ## C9 -/

/-- **C9.** A failure to copy a matched hook file is not fatal: with sources
fetchable and all scripts and packaging steps succeeding, the build succeeds
and assembles every declared package for *every* hook-copy oracle (including
one in which every copy fails); by contrast, an assemble-script failure or a
packaging failure makes the build fail. -/
theorem c9_hook_copy_failure_nonfatal (env : Env) (r : Recipe)
    (resume : Option (List Char × Int))
    (hpkgs : r.package_names ≠ [])
    (hbash : ∀ p s, env.bashOk p s = true)
    (hpack : ∀ p, env.packageOk p = true)
    (hfetch : ∀ hc, (fetchSources { env with hookCopyOk := hc } r.sources).err = none) :
    (∀ hc : List Char → Bool,
      (pipelineAfterParse { env with hookCopyOk := hc } r resume).success = true ∧
      ∀ pkg ∈ r.package_names,
        Ev.assembled pkg ∈ (pipelineAfterParse { env with hookCopyOk := hc } r resume).evs) ∧
    (pipelineAfterParse envAssembleFail rAssembleFail none).success = false ∧
    (pipelineAfterParse envPackageFail rAssembleFail none).success = false := by
  refine ⟨fun hc => pipeline_allok { env with hookCopyOk := hc } r resume hpkgs
      (hfetch hc) hbash hpack, ?_, ?_⟩
  · rfl
  · rfl

/-- Witness for `c9_hook_copy_failure_nonfatal`: the two-package recipe in
an environment where every hook copy fails still builds successfully. -/
theorem c9_hook_copy_failure_nonfatal_witness :
    (pipelineAfterParse { envAllOk with hookCopyOk := fun _ => false }
        (parseSBs c5Lines) none).success = true :=
  ((c9_hook_copy_failure_nonfatal envAllOk (parseSBs c5Lines) none (by decide)
      (fun _ _ => rfl) (fun _ => rfl) (fun _ => rfl)).1 (fun _ => false)).1

end StarpackClaims2

namespace StarpackClaims3

open StarpackModel

/-! ## C7 -/

/-- **C7.** Last occurrence wins for well-formed single-value assignments:
for any prefix of recipe lines leaving the parser in normal mode (no open
custom capture, no open array) and any final `package_version = "x"` and
`description = "y"` assignment lines (values free of line terminators, which
the regex `.*` cannot match), `parse_starbuild` returns exactly the values
of those last occurrences, whatever assignments the prefix contained. -/
theorem c7_last_single_value_assignment_wins (pre : List (List Char)) (x y : List Char)
    (hc : (runLines pre).in_custom = false) (ha : (runLines pre).arrMode = none)
    (hx : noNL x = true) (hy : noNL y = true) :
    (parseSB (pre ++ [pvLineL x, descLineL y])).package_version = x ∧
    (parseSB (pre ++ [pvLineL x, descLineL y])).description = y := by
  have h1 : runLines (pre ++ [pvLineL x, descLineL y])
      = stepLine (stepLine (runLines pre) (pvLineL x)) (descLineL y) := by
    rw [runLines_append]
    rfl
  have h2 : stepLine (runLines pre) (pvLineL x)
      = { runLines pre with package_version := x } := step_pvLine _ _ hc ha hx
  have h3 : stepLine ({ runLines pre with package_version := x }) (descLineL y)
      = { runLines pre with package_version := x, description := y } :=
    step_descLine _ _ hc ha hy
  unfold parseSB
  rw [h1, h2, h3]
  constructor
  · rw [finalize_package_version
      ({ runLines pre with package_version := x, description := y }) ha]
  · rw [finalize_description
      ({ runLines pre with package_version := x, description := y }) ha]

/-- Witness for `c7_last_single_value_assignment_wins`: a recipe assigning
`package_version` twice and `description` twice keeps the last values. -/
theorem c7_last_single_value_assignment_wins_witness :
    (parseSB ([pvLineL "1.0".toList, descLineL "old".toList]
        ++ [pvLineL "2.0".toList, descLineL "new".toList])).package_version
      = "2.0".toList ∧
    (parseSB ([pvLineL "1.0".toList, descLineL "old".toList]
        ++ [pvLineL "2.0".toList, descLineL "new".toList])).description
      = "new".toList :=
  c7_last_single_value_assignment_wins
    [pvLineL "1.0".toList, descLineL "old".toList] "2.0".toList "new".toList
    (by decide) (by decide) (by decide) (by decide)

end StarpackClaims3

namespace StarpackClaims4

open StarpackModel

/-! ## C8 -/

/-- **C8 (amended).** A `symlink: "a:b"` line appends exactly `(a, b)`
provided the link side contains no colon and both sides are already trimmed
and non-empty — the parser splits the quoted payload at its *first* colon
and trims both sides; a payload without a colon, or one whose link or
target side trims to empty, appends nothing and leaves the parse result
unchanged (no error). -/
theorem c8_symlink_first_colon_split :
    (∀ (pre : List (List Char)) (a b : List Char),
      (runLines pre).in_custom = false → (runLines pre).arrMode = none →
      trimC a = a → a ≠ [] → a.contains ':' = false →
      trimC b = b → b ≠ [] →
      (parseSB (pre ++ [symLineL a b])).symlinkPairs
        = (parseSB pre).symlinkPairs ++ [(a, b)]) ∧
    (∀ (pre : List (List Char)) (c : List Char),
      (runLines pre).in_custom = false → (runLines pre).arrMode = none →
      c.contains ':' = false →
      parseSB (pre ++ [symPlainL c]) = parseSB pre) ∧
    (∀ (pre : List (List Char)) (a b : List Char),
      (runLines pre).in_custom = false → (runLines pre).arrMode = none →
      a.contains ':' = false → (trimC a = [] ∨ trimC b = []) →
      parseSB (pre ++ [symLineL a b]) = parseSB pre) := by
  refine ⟨?_, ?_, ?_⟩
  · intro pre a b hc ha hta hane hac htb hbne
    have hre : symLineL a b = symGen (a ++ ':' :: b) := by simp [symLineL, symGen]
    have h1 : (a ++ ':' :: b).contains ':' = true := contains_append_cons a b ':'
    have h2 : (a ++ ':' :: b).takeWhile (fun c => !(c == ':')) = a := by
      rw [takeWhile_append_all _ a _ (contains_eq_false_forall a ':' hac)]
      rw [List.takeWhile_cons]
      simp
    have h3 : ((a ++ ':' :: b).dropWhile (fun c => !(c == ':'))).tail = b := by
      rw [dropWhile_append_all _ a _ (contains_eq_false_forall a ':' hac)]
      rw [List.dropWhile_cons]
      simp
    have hfold : runLines (pre ++ [symLineL a b]) = stepLine (runLines pre) (symLineL a b) := by
      rw [runLines_append]
      rfl
    unfold parseSB
    rw [hfold, hre, step_symGen (runLines pre) _ hc ha, h1, if_pos rfl]
    rw [h2, h3, hta, htb, isEmpty_false_of_ne_nil hane, isEmpty_false_of_ne_nil hbne]
    rw [if_pos (by decide)]
    rw [finalize_symlinkPairs
      ({ runLines pre with
          symlinkPairs := (runLines pre).symlinkPairs ++ [(a, b)] }) ha]
    rw [finalize_symlinkPairs (runLines pre) ha]
  · intro pre c hc ha hcc
    have hfold : runLines (pre ++ [symPlainL c]) = stepLine (runLines pre) (symPlainL c) := by
      rw [runLines_append]
      rfl
    have hre : symPlainL c = symGen c := rfl
    unfold parseSB
    rw [hfold, hre, step_symGen (runLines pre) c hc ha, hcc]
    rw [if_neg (by simp)]
  · intro pre a b hc ha hac hempty
    have hre : symLineL a b = symGen (a ++ ':' :: b) := by simp [symLineL, symGen]
    have h1 : (a ++ ':' :: b).contains ':' = true := contains_append_cons a b ':'
    have h2 : (a ++ ':' :: b).takeWhile (fun c => !(c == ':')) = a := by
      rw [takeWhile_append_all _ a _ (contains_eq_false_forall a ':' hac)]
      rw [List.takeWhile_cons]
      simp
    have h3 : ((a ++ ':' :: b).dropWhile (fun c => !(c == ':'))).tail = b := by
      rw [dropWhile_append_all _ a _ (contains_eq_false_forall a ':' hac)]
      rw [List.dropWhile_cons]
      simp
    have hfold : runLines (pre ++ [symLineL a b]) = stepLine (runLines pre) (symLineL a b) := by
      rw [runLines_append]
      rfl
    unfold parseSB
    rw [hfold, hre, step_symGen (runLines pre) _ hc ha, h1, if_pos rfl, h2, h3]
    rcases hempty with he | he
    · rw [he]
      rw [if_neg (by simp)]
    · rw [he]
      rw [if_neg (by simp)]

/-- Witness for `c8_symlink_first_colon_split`: `symlink: "usr/bin/vi:vim"`
appends exactly that pair. -/
theorem c8_symlink_first_colon_split_witness :
    (parseSB ([] ++ [symLineL "usr/bin/vi".toList "vim".toList])).symlinkPairs
      = (parseSB []).symlinkPairs ++ [("usr/bin/vi".toList, "vim".toList)] :=
  c8_symlink_first_colon_split.1 [] "usr/bin/vi".toList "vim".toList
    (by decide) (by decide) (by decide) (by decide) (by decide) (by decide) (by decide)

end StarpackClaims4

namespace StarpackClaims5

open StarpackModel

/-- C1 (amended): for the three array keys whose parser rules enter the inner
`getline` accumulation loop — `sources=(…)`, `package_descriptions = (…)` and
`dependencies_<pkg> = (…)` — splitting the parenthesized body across N lines
before the closing `)` parses to exactly the same recipe as writing the whole
array on one line (continuation lines are trimmed and joined with single
spaces in both readings).  The five global arrays `dependencies`,
`build_dependencies`, `clashes`, `gives` and `optional_dependencies` are
matched by single-line regexes and do not have this property (see
`c1_counterexample`). -/
theorem c1_array_split_equivalence (pre post ls : List (List Char)) (h p : List Char)
    (hcu : (runLines pre).in_custom = false)
    (ha : (runLines pre).arrMode = none)
    (hH1 : h.getLast?.all (fun c => !(isSpaceC c)) = true)
    (hhc : h.contains ')' = false)
    (hls : ∀ l ∈ ls, (trimC l).contains ')' = false)
    (hp1 : p ≠ []) (hp2 : p.all isWordC = true) :
    (parseSB (pre ++ splitArrLines (srcHdrL h) ls ++ post)
       = parseSB (pre ++ [oneArrLine (srcHdrL h) ls] ++ post)) ∧
    (parseSB (pre ++ splitArrLines (pdescHdrL h) ls ++ post)
       = parseSB (pre ++ [oneArrLine (pdescHdrL h) ls] ++ post)) ∧
    (parseSB (pre ++ splitArrLines (subdepHdrL p h) ls ++ post)
       = parseSB (pre ++ [oneArrLine (subdepHdrL p h) ls] ++ post)) := by
  have hH1' : (h ++ (joinedTail ls ++ [' ', ')'])).getLast?.all
      (fun c => !(isSpaceC c)) = true := by
    rw [show h ++ (joinedTail ls ++ [' ', ')'])
          = (h ++ (joinedTail ls ++ [' '])) ++ [')'] from by simp,
      List.getLast?_concat]
    rfl
  refine ⟨?_, ?_, ?_⟩
  · unfold parseSB
    rw [runLines_split_one pre post ls (srcHdrL h) (oneArrLine (srcHdrL h) ls) h
      ArrKey.srcs ha
      (step_srcHdr _ h hcu ha hH1)
      (by rw [show oneArrLine (srcHdrL h) ls
                = srcHdrL (h ++ (joinedTail ls ++ [' ', ')'])) from by
              simp [oneArrLine, srcHdrL]]
          exact step_srcHdr _ _ hcu ha hH1')
      hhc hls]
  · unfold parseSB
    rw [runLines_split_one pre post ls (pdescHdrL h) (oneArrLine (pdescHdrL h) ls) h
      ArrKey.pdesc ha
      (step_pdescHdr _ h hcu ha hH1)
      (by rw [show oneArrLine (pdescHdrL h) ls
                = pdescHdrL (h ++ (joinedTail ls ++ [' ', ')'])) from by
              simp [oneArrLine, pdescHdrL]]
          exact step_pdescHdr _ _ hcu ha hH1')
      hhc hls]
  · unfold parseSB
    rw [runLines_split_one pre post ls (subdepHdrL p h) (oneArrLine (subdepHdrL p h) ls) h
      (ArrKey.subdep p) ha
      (step_subdepHdr _ p h hcu ha hH1 hp1 hp2)
      (by rw [show oneArrLine (subdepHdrL p h) ls
                = subdepHdrL p (h ++ (joinedTail ls ++ [' ', ')'])) from by
              simp [oneArrLine, subdepHdrL]]
          exact step_subdepHdr _ p _ hcu ha hH1' hp1 hp2)
      hhc hls]

/-- Witness for `c1_array_split_equivalence`: splitting `sources=("a"` /
`package_descriptions = ("a"` / `dependencies_net = ("a"` over a
continuation line `  "b"` and a closing `)` parses identically to the
one-line form. -/
theorem c1_array_split_equivalence_witness :
    (parseSB (([] : List (List Char))
        ++ splitArrLines (srcHdrL "\"a\"".toList) ["  \"b\"".toList] ++ [])
      = parseSB (([] : List (List Char))
        ++ [oneArrLine (srcHdrL "\"a\"".toList) ["  \"b\"".toList]] ++ [])) ∧
    (parseSB (([] : List (List Char))
        ++ splitArrLines (pdescHdrL "\"a\"".toList) ["  \"b\"".toList] ++ [])
      = parseSB (([] : List (List Char))
        ++ [oneArrLine (pdescHdrL "\"a\"".toList) ["  \"b\"".toList]] ++ [])) ∧
    (parseSB (([] : List (List Char))
        ++ splitArrLines (subdepHdrL "net".toList "\"a\"".toList) ["  \"b\"".toList] ++ [])
      = parseSB (([] : List (List Char))
        ++ [oneArrLine (subdepHdrL "net".toList "\"a\"".toList) ["  \"b\"".toList]] ++ [])) :=
  c1_array_split_equivalence [] [] ["  \"b\"".toList] "\"a\"".toList "net".toList
    rfl rfl (by decide) (by decide) (by decide) (by decide) (by decide)

end StarpackClaims5
